import Mathlib

/-!
Shallow embedding of the zchat backend's core messaging subsystem
(`src/backend/app`), covering the message codec wrapper
(`app/utils/encryption.py`), the message service
(`app/services/message_service.py`), the conversation service
(`app/services/conversation_service.py`), the request-validation schemas
(`app/schemas/message.py`, `app/schemas/conversation.py`), and the
file-retention cleanup script (`scripts/cleanup_files.py`).

Database rows are plain structures, the SQLAlchemy session is an explicit
`DB` state record, HTTP errors are an `Err` inductive, and timestamps are
natural numbers drawn from a logical clock (`DB.clock`) that the service
bumps on each insert, mirroring the strictly increasing `created_at`
defaults of the models.
-/

namespace ZChat

/-- Typed failures; the Python code raises `HTTPException` with these codes:
`notFound` = 404, `forbidden` = 403, `invalidArgument` = 422 (pydantic
schema validation), `badRequest` = 400 (invalid state / invalid delete type). -/
inductive Err where
  | notFound
  | forbidden
  | invalidArgument
  | badRequest
deriving DecidableEq, Repr

/-- The external Fernet cipher from the `cryptography` package, abstracted as
a pair of functions on strings: `enc` produces a token, `dec` either recovers
the plaintext or fails (`none` models the `InvalidToken` exception). The
Fernet contract (`dec (enc s) = some s`, tokens never empty) is taken as a
hypothesis where theorems need it. -/
structure FernetCipher where
  enc : String → String
  dec : String → Option String

namespace MessageEncryption

/-- Embeds `MessageEncryption.encrypt` from `app/utils/encryption.py`:
empty strings are returned as-is (`if not message: return message`),
otherwise the Fernet cipher is applied. -/
def encrypt (c : FernetCipher) (message : String) : String :=
  if message = "" then message else c.enc message

/-- Embeds `MessageEncryption.decrypt` from `app/utils/encryption.py`:
empty strings are returned as-is; otherwise Fernet decryption is attempted
and on any failure the input is returned unchanged (the `except` branch). -/
def decrypt (c : FernetCipher) (encrypted_message : String) : String :=
  if encrypted_message = "" then encrypted_message
  else
    match c.dec encrypted_message with
    | some d => d
    | none => encrypted_message

end MessageEncryption

/-- Row of the `users` table (`app/models/user.py`); only the columns the
modelled operations read. -/
structure User where
  id : Nat
  username : String
deriving DecidableEq, Repr

/-- Row of the `messages` table (`app/models/message.py`). `content` holds
the encrypted body; `created_at` is a logical timestamp. -/
structure Message where
  id : Nat
  content : String
  conversation_id : Nat
  sender_id : Nat
  created_at : Nat
  file_path : Option String
  file_type : Option String
  fully_read_at : Option Nat
  is_deleted : Bool
  is_edited : Bool
  is_read : Bool
deriving DecidableEq, Repr

/-- Row of the `user_deleted_messages` table (`app/models/message.py`),
the per-user deleted-for-me overlay. -/
structure UserDeletedMessage where
  user_id : Nat
  message_id : Nat
  deleted_at : Nat
deriving DecidableEq, Repr

/-- Row of the `conversations` table together with its
`conversation_participants` association rows (`app/models/conversation.py`,
`app/models/user.py`); `participants` lists the participant user ids. -/
structure Conversation where
  id : Nat
  name : Option String
  is_group : Bool
  participants : List Nat
deriving DecidableEq, Repr

/-- The relational store reachable through one SQLAlchemy session, plus the
id-allocation counters of the integer primary keys and the logical clock
feeding `created_at` defaults. -/
structure DB where
  users : List User
  conversations : List Conversation
  messages : List Message
  user_deleted_messages : List UserDeletedMessage
  next_message_id : Nat
  next_conversation_id : Nat
  clock : Nat
deriving DecidableEq, Repr

/-- The configuration relevant to the modelled claims
(`app/config.py`, `Settings.MAX_MESSAGES_PER_CONVERSATION`, default 1000). -/
structure Settings where
  MAX_MESSAGES_PER_CONVERSATION : Nat
deriving DecidableEq, Repr

/-- The decrypted view returned to callers (`app/schemas/message.py`,
`MessageResponse`). -/
structure MessageResponse where
  id : Nat
  content : String
  conversation_id : Nat
  sender_id : Nat
  sender_username : String
  created_at : Nat
  file_path : Option String
  file_type : Option String
  is_deleted : Bool
  is_edited : Bool
deriving DecidableEq, Repr

/-- Insertion of a message into a list sorted by `created_at`; helper for
`sortByCreated`. -/
def insertByCreated (m : Message) : List Message → List Message
  | [] => [m]
  | x :: xs =>
    if m.created_at ≤ x.created_at then m :: x :: xs
    else x :: insertByCreated m xs

/-- Insertion sort by `created_at`, embedding the SQL
`ORDER BY messages.created_at` used by the pruning and listing queries. -/
def sortByCreated : List Message → List Message
  | [] => []
  | x :: xs => insertByCreated x (sortByCreated xs)

namespace MessageService

/-- Embeds `MessageService._message_to_response`: decrypts the stored body
and copies the row's fields, resolving the sender's username. -/
def message_to_response (c : FernetCipher) (db : DB) (m : Message) :
    MessageResponse :=
  { id := m.id
    content := MessageEncryption.decrypt c m.content
    conversation_id := m.conversation_id
    sender_id := m.sender_id
    sender_username :=
      (((db.users.find? (fun u => u.id == m.sender_id)).map
        (fun u => u.username)).getD "")
    created_at := m.created_at
    file_path := m.file_path
    file_type := m.file_type
    is_deleted := m.is_deleted
    is_edited := m.is_edited }

/-- Embeds `MessageService._prune_old_messages`: counts the conversation's
messages and, when the count exceeds the configured ceiling, deletes the
oldest surplus rows (ordered by `created_at`) by id. -/
def prune_old_messages (st : Settings) (db : DB) (conversation_id : Nat) :
    DB :=
  let ms := db.messages.filter (fun m => m.conversation_id == conversation_id)
  if ms.length > st.MAX_MESSAGES_PER_CONVERSATION then
    let doomed :=
      ((sortByCreated ms).take
        (ms.length - st.MAX_MESSAGES_PER_CONVERSATION)).map (fun m => m.id)
    { db with
      messages := db.messages.filter (fun m => !(doomed.contains m.id)) }
  else db

/-- Embeds `MessageService.create_message` (post schema validation): checks
the conversation exists and the sender participates, encrypts the content,
inserts the row, prunes the conversation, and returns the decrypted
response built from the new row. -/
def create_message (c : FernetCipher) (st : Settings) (db : DB)
    (conversation_id sender_id : Nat) (content : String)
    (file_path file_type : Option String) :
    Except Err (DB × MessageResponse) :=
  match db.conversations.find? (fun cv => cv.id == conversation_id) with
  | none => .error .notFound
  | some cv =>
    if sender_id ∈ cv.participants then
      let encrypted_content := MessageEncryption.encrypt c content
      let new_message : Message :=
        { id := db.next_message_id
          content := encrypted_content
          conversation_id := conversation_id
          sender_id := sender_id
          created_at := db.clock
          file_path := file_path
          file_type := file_type
          fully_read_at := none
          is_deleted := false
          is_edited := false
          is_read := false }
      let db1 : DB :=
        { db with
          messages := db.messages ++ [new_message]
          next_message_id := db.next_message_id + 1
          clock := db.clock + 1 }
      let db2 := prune_old_messages st db1 conversation_id
      .ok (db2, message_to_response c db2 new_message)
    else .error .forbidden

/-- Embeds `MessageService.get_conversation_messages`: existence and
participation checks, then the last `limit` messages of the conversation
(default ceiling), excluding the requester's deleted-for-me overlay,
returned oldest to newest and decrypted. -/
def get_conversation_messages (c : FernetCipher) (st : Settings) (db : DB)
    (conversation_id user_id : Nat) (limit : Option Nat) :
    Except Err (List MessageResponse) :=
  match db.conversations.find? (fun cv => cv.id == conversation_id) with
  | none => .error .notFound
  | some cv =>
    if user_id ∈ cv.participants then
      let lim := limit.getD st.MAX_MESSAGES_PER_CONVERSATION
      let deleted_for_me :=
        (db.user_deleted_messages.filter (fun r => r.user_id == user_id)).map
          (fun r => r.message_id)
      let msgs := db.messages.filter
        (fun m => m.conversation_id == conversation_id &&
          !(deleted_for_me.contains m.id))
      let page := ((sortByCreated msgs).reverse.take lim).reverse
      .ok (page.map (message_to_response c db))
    else .error .forbidden

/-- Embeds `MessageService.edit_message`: existence, sender and
not-deleted checks, then re-encrypts the content and sets the edited flag. -/
def edit_message (c : FernetCipher) (db : DB) (message_id user_id : Nat)
    (content : String) : Except Err (DB × MessageResponse) :=
  match db.messages.find? (fun m => m.id == message_id) with
  | none => .error .notFound
  | some m =>
    if m.sender_id ≠ user_id then .error .forbidden
    else if m.is_deleted then .error .badRequest
    else
      let m1 := { m with
        content := MessageEncryption.encrypt c content
        is_edited := true }
      let db1 := { db with
        messages := db.messages.map (fun x => if x.id == message_id then m1 else x) }
      .ok (db1, message_to_response c db1 m1)

/-- Embeds `MessageService.delete_message`: `for_everyone` requires the
requester to be the sender and sets the deleted flag in place;
`for_me` inserts an overlay row unless one already exists; any other
`delete_type` fails with a 400. -/
def delete_message (c : FernetCipher) (db : DB) (message_id user_id : Nat)
    (delete_type : String) : Except Err (DB × MessageResponse) :=
  match db.messages.find? (fun m => m.id == message_id) with
  | none => .error .notFound
  | some m =>
    if delete_type = "for_everyone" then
      if m.sender_id ≠ user_id then .error .forbidden
      else
        let m1 := { m with is_deleted := true }
        let db1 := { db with
          messages := db.messages.map (fun x => if x.id == message_id then m1 else x) }
        .ok (db1, message_to_response c db1 m1)
    else if delete_type = "for_me" then
      let existing := db.user_deleted_messages.find?
        (fun r => r.user_id == user_id && r.message_id == message_id)
      match existing with
      | some _ => .ok (db, message_to_response c db m)
      | none =>
        let db1 := { db with
          user_deleted_messages := db.user_deleted_messages ++
            [{ user_id := user_id, message_id := message_id,
               deleted_at := db.clock }] }
        .ok (db1, message_to_response c db1 m)
    else .error .badRequest

end MessageService

/-- Executable model of the Python `str.strip()` used by the schema
validators: drops whitespace characters from both ends (structural
recursion on the character list, so concrete inputs evaluate in the
kernel). -/
def pyStrip (s : String) : String :=
  ⟨(((s.data.dropWhile Char.isWhitespace).reverse).dropWhile
      Char.isWhitespace).reverse⟩

/-- Embeds the `content_not_empty` validator together with the field
constraints of `MessageCreate` (`app/schemas/message.py`): length between 1
and 5000, and unless a non-empty `file_path` is attached the content must
not be whitespace-only and is stored stripped. Validation failure is the
framework's 422, `Err.invalidArgument`. -/
def MessageCreate.validate (content : String) (file_path : Option String) :
    Except Err String :=
  if content.length < 1 ∨ content.length > 5000 then .error .invalidArgument
  else if (match file_path with | some p => p != "" | none => false) then
    .ok content
  else if pyStrip content = "" then .error .invalidArgument
  else .ok (pyStrip content)

/-- The full create-message entry point: pydantic validation of the request
body (`MessageCreate`) followed by `MessageService.create_message`. -/
def createMessage (c : FernetCipher) (st : Settings) (db : DB)
    (conversation_id sender_id : Nat) (content : String)
    (file_path file_type : Option String) :
    Except Err (DB × MessageResponse) := do
  let content' ← MessageCreate.validate content file_path
  MessageService.create_message c st db conversation_id sender_id content'
    file_path file_type

/-- Order-preserving removal of duplicates keeping first occurrences,
embedding the `seen`-set loop of
`ConversationCreate.validate_conversation`. -/
def dedupFirst (seen : List Nat) : List Nat → List Nat
  | [] => []
  | x :: xs =>
    if x ∈ seen then dedupFirst seen xs
    else x :: dedupFirst (x :: seen) xs

/-- Embeds `ConversationCreate.validate_conversation`
(`app/schemas/conversation.py`): deduplicates the named participant ids,
requires at least 2 named others for a group and exactly 1 named other for
a direct conversation, and clears the name on direct conversations.
Returns the validated (name, unique participant ids). -/
def ConversationCreate.validate_conversation (name : Option String)
    (is_group : Bool) (participant_ids : List Nat) :
    Except Err (Option String × List Nat) :=
  let unique_ids := dedupFirst [] participant_ids
  if is_group ∧ unique_ids.length < 2 then .error .invalidArgument
  else if ¬ is_group ∧ unique_ids.length ≠ 1 then .error .invalidArgument
  else .ok ((if is_group then name else none), unique_ids)

namespace ConversationService

/-- Embeds `ConversationService._find_existing_direct_conversation`: the SQL
picks the first non-group conversation having exactly 2 association rows
among the given pair of ids, then Python re-checks that it has exactly 2
participants in total. -/
def find_existing_direct_conversation (db : DB) (participant_ids : List Nat) :
    Option Conversation :=
  if participant_ids.length ≠ 2 then none
  else
    match db.conversations.find?
      (fun cv => cv.is_group == false &&
        (cv.participants.filter (fun p => participant_ids.contains p)).length == 2) with
    | some cv => if cv.participants.length = 2 then some cv else none
    | none => none

/-- Embeds `ConversationService._find_existing_group_conversation`: the SQL
selects group conversations whose association rows among the given ids
number exactly `len(participant_ids)`; Python then returns the first with
the same participant count and the exact same participant id set. -/
def find_existing_group_conversation (db : DB) (participant_ids : List Nat) :
    Option Conversation :=
  if participant_ids.length < 2 then none
  else
    let n := participant_ids.length
    let candidates := db.conversations.filter
      (fun cv => cv.is_group &&
        (cv.participants.filter (fun p => participant_ids.contains p)).length == n)
    candidates.find?
      (fun cv => cv.participants.length == n &&
        (cv.participants.all (fun p => participant_ids.contains p) &&
          participant_ids.all (fun p => cv.participants.contains p)))

/-- Embeds `ConversationService.create_conversation` (post schema
validation). Collects the distinct participant set (named ids plus the
creator), resolves the user rows (404 when any is missing), searches for an
existing conversation with the same participant set and group-ness, and
otherwise inserts a new row. The returned `Conversation` stands for the
id/participants part of `_conversation_to_response`. -/
def create_conversation (db : DB) (participant_ids : List Nat)
    (is_group : Bool) (name : Option String) (creator_id : Nat) :
    Except Err (DB × Conversation) :=
  let pset := dedupFirst [] (participant_ids ++ [creator_id])
  let plist := (db.users.map (fun u => u.id)).filter (fun i => pset.contains i)
  if plist.length ≠ pset.length then .error .notFound
  else if ¬ is_group ∧ plist.length = 2 then
    match find_existing_direct_conversation db plist with
    | some cv => .ok (db, cv)
    | none =>
      let cv : Conversation :=
        { id := db.next_conversation_id, name := name,
          is_group := is_group, participants := plist }
      let db1 := { db with
        conversations := db.conversations ++ [cv]
        next_conversation_id := db.next_conversation_id + 1 }
      .ok (db1, cv)
  else if is_group then
    match find_existing_group_conversation db plist with
    | some cv => .ok (db, cv)
    | none =>
      let cv : Conversation :=
        { id := db.next_conversation_id, name := name,
          is_group := is_group, participants := plist }
      let db1 := { db with
        conversations := db.conversations ++ [cv]
        next_conversation_id := db.next_conversation_id + 1 }
      .ok (db1, cv)
  else
    let cv : Conversation :=
      { id := db.next_conversation_id, name := name,
        is_group := is_group, participants := plist }
    let db1 := { db with
      conversations := db.conversations ++ [cv]
      next_conversation_id := db.next_conversation_id + 1 }
    .ok (db1, cv)

end ConversationService

/-- The full create-conversation entry point: pydantic validation
(`ConversationCreate`) followed by `ConversationService.create_conversation`. -/
def createConversation (db : DB) (participant_ids : List Nat)
    (is_group : Bool) (name : Option String) (creator_id : Nat) :
    Except Err (DB × Conversation) := do
  let v ← ConversationCreate.validate_conversation name is_group participant_ids
  ConversationService.create_conversation db v.2 is_group v.1 creator_id

/-- The retention window of `scripts/cleanup_files.py`, in days:
`retention_period = timedelta(days=10)`. -/
def retention_period_days : Nat := 10

/-- Embeds the reachable update logic of `cleanup_files` in
`scripts/cleanup_files.py` (lines 36 to 68): select the messages that carry
a file, are not deleted-for-everyone and were created before
`now - retention_period`, and for each one set the body to the literal
string `"[File expired]"` and clear `file_path` and `file_type`.

The committed script is a merge of two versions and fails to parse
(IndentationError at its line 86), so it performs no update at all when
run; the orphaned second block (lines 70 to 89) shows the intended logic,
which instead encrypts an attachment-kind-specific tombstone and sets
`is_deleted`. Timestamps are interpreted in days here. -/
def cleanup_files (now : Nat) (db : DB) : DB :=
  let cutoff := now - retention_period_days
  { db with
    messages := db.messages.map (fun m =>
      if m.file_path ≠ none ∧ m.is_deleted = false ∧ m.created_at < cutoff then
        { m with content := "[File expired]", file_path := none,
                 file_type := none }
      else m) }

/-- Sequential `create_message` calls with the given contents, aborting on
the first failure; drives the pruning claim. -/
def createMany (c : FernetCipher) (st : Settings) (db : DB)
    (conversation_id sender_id : Nat) : List String → Except Err DB
  | [] => .ok db
  | s :: rest =>
    match MessageService.create_message c st db conversation_id sender_id s
      none none with
    | .ok (db1, _) => createMany c st db1 conversation_id sender_id rest
    | .error e => .error e

/-- The last `n` elements of a list. -/
def lastN (n : Nat) (l : List α) : List α := l.drop (l.length - n)

/-- Database well-formedness maintained by every modelled operation:
distinct primary keys below the allocation counters, message rows in
strictly increasing `created_at` order below the clock, distinct
participant rows per conversation (the association table's composite
primary key), and distinct user ids. -/
structure DBInv (db : DB) : Prop where
  msg_ids_nodup : (db.messages.map (fun m => m.id)).Nodup
  msg_ids_lt : ∀ m ∈ db.messages, m.id < db.next_message_id
  msg_created_lt : ∀ m ∈ db.messages, m.created_at < db.clock
  msg_sorted : db.messages.Pairwise (fun a b => a.created_at < b.created_at)
  conv_ids_nodup : (db.conversations.map (fun cv => cv.id)).Nodup
  conv_ids_lt : ∀ cv ∈ db.conversations, cv.id < db.next_conversation_id
  conv_participants_nodup : ∀ cv ∈ db.conversations, cv.participants.Nodup
  user_ids_nodup : (db.users.map (fun u => u.id)).Nodup

/-- A concrete witness cipher satisfying the Fernet contract: tokens are
the plaintext prefixed with the character g (the real Fernet tokens start
with the byte layout encoded as a gAAAA-prefixed base64 string). -/
def gCipher : FernetCipher where
  enc s := ⟨'g' :: s.data⟩
  dec s :=
    match s.data with
    | 'g' :: rest => some ⟨rest⟩
    | _ => none

/-- A one-user database used by concrete witnesses. -/
def db1 : DB :=
  { users := [{ id := 1, username := "alice" }]
    conversations := []
    messages := []
    user_deleted_messages := []
    next_message_id := 1
    next_conversation_id := 1
    clock := 0 }

/-- A database holding one ten-day-old attachment message, used to evaluate
the cleanup script's behavior. The stored body is the `gCipher` encryption
of the string hi. -/
def dbExpired : DB :=
  { users := [{ id := 1, username := "alice" }, { id := 2, username := "bob" }]
    conversations := [{ id := 1, name := none, is_group := false,
                        participants := [1, 2] }]
    messages := [{ id := 1, content := "ghi", conversation_id := 1,
                   sender_id := 1, created_at := 0,
                   file_path := some "uploads/a.jpg",
                   file_type := some "picture", fully_read_at := none,
                   is_deleted := false, is_edited := false, is_read := false }]
    user_deleted_messages := []
    next_message_id := 2
    next_conversation_id := 2
    clock := 1 }

/-- A two-user database with one direct conversation and one message, used
by concrete witnesses for the message-service claims. -/
def dbTwo : DB :=
  { users := [{ id := 1, username := "alice" }, { id := 2, username := "bob" }]
    conversations := [{ id := 1, name := none, is_group := false,
                        participants := [1, 2] }]
    messages := [{ id := 1, content := "ghi", conversation_id := 1,
                   sender_id := 1, created_at := 0,
                   file_path := none, file_type := none,
                   fully_read_at := none, is_deleted := false,
                   is_edited := false, is_read := false }]
    user_deleted_messages := []
    next_message_id := 2
    next_conversation_id := 2
    clock := 1 }

/-- A message whose stored content is not a valid token of `gCipher`,
used to evaluate the decode-failure path of the retrieval contract. -/
def msgCorrupt : Message :=
  { id := 9, content := "[x]", conversation_id := 1, sender_id := 1,
    created_at := 0, file_path := none, file_type := none,
    fully_read_at := none, is_deleted := false, is_edited := false,
    is_read := false }

/-- A content string exceeding the 5000-character maximum of
`MessageCreate`. -/
def longContent : String := ⟨List.replicate 5001 'a'⟩

/-- A two-user database with one direct conversation and no messages yet,
used by the pruning witness. -/
def dbConvEmpty : DB :=
  { users := [{ id := 1, username := "alice" }, { id := 2, username := "bob" }]
    conversations := [{ id := 1, name := none, is_group := false,
                        participants := [1, 2] }]
    messages := []
    user_deleted_messages := []
    next_message_id := 1
    next_conversation_id := 2
    clock := 0 }

/-- A four-user database with no conversations, used by the concrete
witnesses of the conversation claims. -/
def dbFour : DB :=
  { users := [{ id := 1, username := "alice" }, { id := 2, username := "bob" },
              { id := 3, username := "carol" }, { id := 4, username := "dave" }]
    conversations := []
    messages := []
    user_deleted_messages := []
    next_message_id := 1
    next_conversation_id := 1
    clock := 0 }

/-! ## Helper lemmas -/

theorem gCipher_dec_enc (t : String) : gCipher.dec (gCipher.enc t) = some t := rfl

theorem gCipher_enc_ne_empty (t : String) : gCipher.enc t ≠ "" := by
  intro h
  have h2 := congrArg String.data h
  simp [gCipher] at h2

theorem decrypt_encrypt_of_contract (c : FernetCipher)
    (hrt : ∀ t, c.dec (c.enc t) = some t) (hne : ∀ t, c.enc t ≠ "") (s : String) :
    MessageEncryption.decrypt c (MessageEncryption.encrypt c s) = s := by
  unfold MessageEncryption.encrypt MessageEncryption.decrypt
  by_cases hs : s = ""
  · simp [hs]
  · rw [if_neg hs, if_neg (hne s), hrt s]

theorem mem_insertByCreated {m a : Message} {l : List Message} :
    a ∈ insertByCreated m l ↔ a = m ∨ a ∈ l := by
  induction l with
  | nil => simp [insertByCreated]
  | cons x xs ih =>
    simp only [insertByCreated]
    split
    · simp [List.mem_cons]
    · simp only [List.mem_cons, ih]
      tauto

theorem mem_sortByCreated {a : Message} {l : List Message} :
    a ∈ sortByCreated l ↔ a ∈ l := by
  induction l with
  | nil => simp [sortByCreated]
  | cons x xs ih => simp [sortByCreated, mem_insertByCreated, ih]

theorem longContent_length : longContent.length = 5001 := by
  show (List.replicate 5001 'a').length = 5001
  rw [List.length_replicate]

/-! ## Claims -/

/-- C1: the claim that every message body persisted by the core, including
those written by the file-retention cleanup job, is stored only in the
Message Codec's encrypted form. The cleanup job violates this: evaluated on
a database with one expired attachment message, its reachable update logic
stores the literal clear-text tombstone, which is not the encryption of any
string (witnessed against the concrete `gCipher`; real Fernet tokens are
likewise never equal to this clear text). -/
theorem C1_cleanup_stores_clear_text :
    ((cleanup_files 11 dbExpired).messages.map (fun m => m.content))
      = ["[File expired]"]
    ∧ ∀ s, MessageEncryption.encrypt gCipher s ≠ "[File expired]" := by
  refine ⟨by decide, ?_⟩
  intro s h
  by_cases hs : s = ""
  · rw [MessageEncryption.encrypt, if_pos hs] at h
    rw [hs] at h
    exact absurd (congrArg String.data h) (by decide)
  · rw [MessageEncryption.encrypt, if_neg hs] at h
    have h2 := congrArg (fun t => t.data.head?) h
    simp only [gCipher, List.head?_cons] at h2
    exact absurd h2 (by decide)

/-- C2: the claim that running the retention cleanup on an
attachment-bearing message older than the 10-day window (and not yet
deleted-for-everyone) clears its attachment reference, replaces its body
with the tombstone and sets its deleted-for-everyone flag. Evaluating the
script's reachable update logic on such a message shows the attachment
reference cleared and the tombstone written but the deleted flag left
unset (and the committed script itself fails to parse, so the real job
performs no update at all). -/
theorem C2_cleanup_leaves_deleted_flag_unset :
    ((cleanup_files 11 dbExpired).messages.map
      (fun m => (m.content, m.file_path, m.file_type, m.is_deleted)))
      = [("[File expired]", none, none, false)] := by decide

/-- C3 counterexample: the claim that every conversation admitted by
`createConversation` has exactly 2 distinct participants when non-group
(and that violating requests fail with InvalidArgument) is false: a
creator naming only themself is admitted with a single-participant
non-group conversation. -/
theorem C3_counterexample :
    ((createConversation db1 [1] false none 1).toOption.map
      (fun p => p.2.participants)) = some [1] := by decide

/-- C6: for every message content, decrypt of encrypt is the identity
(given the Fernet library contract), the response returned by
`create_message` carries the original clear text, and every message
returned by `get_conversation_messages` is the decryption of a stored
row, so retrieval never exposes the stored encrypted form. -/
theorem C6_roundtrip_and_retrieval (c : FernetCipher)
    (hrt : ∀ t, c.dec (c.enc t) = some t) (hne : ∀ t, c.enc t ≠ "") :
    (∀ s, MessageEncryption.decrypt c (MessageEncryption.encrypt c s) = s)
    ∧ (∀ st db conversation_id sender_id content file_path file_type db2 resp,
        MessageService.create_message c st db conversation_id sender_id content
          file_path file_type = .ok (db2, resp) → resp.content = content)
    ∧ (∀ st db conversation_id user_id limit rs,
        MessageService.get_conversation_messages c st db conversation_id
          user_id limit = .ok rs →
        ∀ r ∈ rs, ∃ m ∈ db.messages, r.id = m.id ∧
          r.content = MessageEncryption.decrypt c m.content) := by
  refine ⟨decrypt_encrypt_of_contract c hrt hne, ?_, ?_⟩
  · intro st db conversation_id sender_id content file_path file_type db2 resp h
    unfold MessageService.create_message at h
    split at h
    · exact absurd h (by simp)
    · split at h
      · simp only [Except.ok.injEq, Prod.mk.injEq] at h
        rw [← h.2]
        simp only [MessageService.message_to_response]
        exact decrypt_encrypt_of_contract c hrt hne content
      · exact absurd h (by simp)
  · intro st db conversation_id user_id limit rs h
    unfold MessageService.get_conversation_messages at h
    split at h
    · exact absurd h (by simp)
    · split at h
      · simp only [Except.ok.injEq] at h
        intro r hr
        rw [← h] at hr
        obtain ⟨m, hm, hmr⟩ := List.mem_map.mp hr
        refine ⟨m, ?_, ?_, ?_⟩
        · have h1 : m ∈ (sortByCreated (db.messages.filter (fun x =>
              x.conversation_id == conversation_id &&
              !(((db.user_deleted_messages.filter (fun rr => rr.user_id == user_id)).map
                  (fun rr => rr.message_id)).contains x.id)))) := by
            have := List.mem_reverse.mp hm
            exact List.mem_reverse.mp (List.mem_of_mem_take this)
          have h2 := mem_sortByCreated.mp h1
          exact List.mem_of_mem_filter h2
        · rw [← hmr]
          rfl
        · rw [← hmr]
          rfl
      · exact absurd h (by simp)

/-- C6 witness: the round trip evaluated at a concrete content on the
concrete cipher. -/
theorem C6_witness :
    MessageEncryption.decrypt gCipher (MessageEncryption.encrypt gCipher "hi")
      = "hi" :=
  (C6_roundtrip_and_retrieval gCipher gCipher_dec_enc gCipher_enc_ne_empty).1 "hi"

/-- C10: decrypt is total and returns the input unchanged when the input is
empty or is not a valid ciphertext, and `message_to_response` then
surfaces the stored bytes verbatim. -/
theorem C10_decrypt_total (c : FernetCipher) (s : String) :
    (s = "" → MessageEncryption.decrypt c s = s)
    ∧ (c.dec s = none → MessageEncryption.decrypt c s = s)
    ∧ (∀ db m, c.dec m.content = none →
        (MessageService.message_to_response c db m).content = m.content) := by
  refine ⟨?_, ?_, ?_⟩
  · intro hs
    rw [MessageEncryption.decrypt, if_pos hs]
  · intro hd
    unfold MessageEncryption.decrypt
    split
    · rfl
    · rw [hd]
  · intro db m hd
    simp only [MessageService.message_to_response]
    unfold MessageEncryption.decrypt
    split
    · rfl
    · rw [hd]

/-- C10 witness: decrypt evaluated at the empty string and at a concrete
invalid ciphertext, and the retrieval of a concretely corrupt stored row. -/
theorem C10_witness :
    MessageEncryption.decrypt gCipher "" = ""
    ∧ MessageEncryption.decrypt gCipher "[x]" = "[x]"
    ∧ (MessageService.message_to_response gCipher dbTwo msgCorrupt).content
        = "[x]" :=
  ⟨(C10_decrypt_total gCipher "").1 rfl,
   (C10_decrypt_total gCipher "[x]").2.1 rfl,
   (C10_decrypt_total gCipher "[x]").2.2 dbTwo msgCorrupt rfl⟩

/-- C8: createMessage fails with NotFound when the conversation does not
exist (for any request that passes body validation), Forbidden when the
sender is not a participant, and InvalidArgument when the content is empty
or whitespace-only with no attachment present, or exceeds the maximum
length; in particular whitespace-only content with no attachment always
fails with InvalidArgument. -/
theorem C8_create_message_errors (c : FernetCipher) (st : Settings)
    (db : DB) (conversation_id sender_id : Nat) (content : String)
    (file_path file_type : Option String) :
    (pyStrip content = "" → (file_path = none ∨ file_path = some "") →
      createMessage c st db conversation_id sender_id content file_path
        file_type = .error .invalidArgument)
    ∧ (content.length > 5000 →
      createMessage c st db conversation_id sender_id content file_path
        file_type = .error .invalidArgument)
    ∧ (∀ content2, MessageCreate.validate content file_path = .ok content2 →
        db.conversations.find? (fun cv => cv.id == conversation_id) = none →
        createMessage c st db conversation_id sender_id content file_path
          file_type = .error .notFound)
    ∧ (∀ content2 cv, MessageCreate.validate content file_path = .ok content2 →
        db.conversations.find? (fun cv => cv.id == conversation_id) = some cv →
        sender_id ∉ cv.participants →
        createMessage c st db conversation_id sender_id content file_path
          file_type = .error .forbidden) := by
  refine ⟨?_, ?_, ?_, ?_⟩
  · intro htrim hfp
    have hval : MessageCreate.validate content file_path
        = .error .invalidArgument := by
      unfold MessageCreate.validate
      by_cases hlen : content.length < 1 ∨ content.length > 5000
      · rw [if_pos hlen]
      · rw [if_neg hlen]
        rcases hfp with h | h <;> rw [h] <;> simp [htrim]
    unfold createMessage
    rw [hval]
    rfl
  · intro hlong
    have hval : MessageCreate.validate content file_path
        = .error .invalidArgument := by
      unfold MessageCreate.validate
      rw [if_pos (Or.inr hlong)]
    unfold createMessage
    rw [hval]
    rfl
  · intro content2 hval hfind
    unfold createMessage
    rw [hval]
    show MessageService.create_message c st db conversation_id sender_id
      content2 file_path file_type = .error .notFound
    unfold MessageService.create_message
    rw [hfind]
  · intro content2 cv hval hfind hmem
    unfold createMessage
    rw [hval]
    show MessageService.create_message c st db conversation_id sender_id
      content2 file_path file_type = .error .forbidden
    unfold MessageService.create_message
    rw [hfind]
    simp only [if_neg hmem]

/-- C8 witness: the four failure modes evaluated at concrete requests
against `dbTwo` (whitespace-only content without attachment, over-long
content, a missing conversation, and a non-participant sender). -/
theorem C8_create_message_errors_witness :
    createMessage gCipher ⟨1000⟩ dbTwo 1 1 "   " none none
      = .error .invalidArgument
    ∧ createMessage gCipher ⟨1000⟩ dbTwo 1 1 longContent none none
      = .error .invalidArgument
    ∧ createMessage gCipher ⟨1000⟩ dbTwo 99 1 "hi" none none
      = .error .notFound
    ∧ createMessage gCipher ⟨1000⟩ dbTwo 1 3 "hi" none none
      = .error .forbidden :=
  ⟨(C8_create_message_errors gCipher ⟨1000⟩ dbTwo 1 1 "   " none none).1
      rfl (Or.inl rfl),
   (C8_create_message_errors gCipher ⟨1000⟩ dbTwo 1 1 longContent none
      none).2.1 (by rw [longContent_length]; norm_num),
   (C8_create_message_errors gCipher ⟨1000⟩ dbTwo 99 1 "hi" none none).2.2.1
      "hi" rfl rfl,
   (C8_create_message_errors gCipher ⟨1000⟩ dbTwo 1 3 "hi" none none).2.2.2
      "hi" ⟨1, none, false, [1, 2]⟩ rfl (by decide) (by decide)⟩

theorem delete_for_me_inserts (c : FernetCipher) (db : DB)
    (message_id user_id : Nat) (m : Message)
    (hm : db.messages.find? (fun x => x.id == message_id) = some m)
    (h0 : db.user_deleted_messages.find?
      (fun r => r.user_id == user_id && r.message_id == message_id) = none) :
    MessageService.delete_message c db message_id user_id "for_me"
      = .ok ({ db with user_deleted_messages := db.user_deleted_messages ++
          [{ user_id := user_id, message_id := message_id,
             deleted_at := db.clock }] },
        MessageService.message_to_response c
          { db with user_deleted_messages := db.user_deleted_messages ++
            [{ user_id := user_id, message_id := message_id,
               deleted_at := db.clock }] } m) := by
  simp [MessageService.delete_message, hm, h0]

theorem delete_for_me_noop (c : FernetCipher) (db : DB)
    (message_id user_id : Nat) (m : Message) (r : UserDeletedMessage)
    (hm : db.messages.find? (fun x => x.id == message_id) = some m)
    (hex : db.user_deleted_messages.find?
      (fun r => r.user_id == user_id && r.message_id == message_id) = some r) :
    MessageService.delete_message c db message_id user_id "for_me"
      = .ok (db, MessageService.message_to_response c db m) := by
  simp [MessageService.delete_message, hm, hex]

/-- C9: deleting a message for-me twice for the same (user, message) pair
succeeds both times, leaves exactly one overlay row for the pair, and
leaves the message rows themselves untouched, so other participants' view
is unaffected. -/
theorem C9_delete_for_me_idempotent (c : FernetCipher) (db : DB)
    (message_id user_id : Nat) (m : Message)
    (hm : db.messages.find? (fun x => x.id == message_id) = some m)
    (h0 : db.user_deleted_messages.find?
      (fun r => r.user_id == user_id && r.message_id == message_id) = none) :
    ∃ db1 r1 r2,
      MessageService.delete_message c db message_id user_id "for_me"
        = .ok (db1, r1)
      ∧ MessageService.delete_message c db1 message_id user_id "for_me"
        = .ok (db1, r2)
      ∧ (db1.user_deleted_messages.filter
          (fun r => r.user_id == user_id && r.message_id == message_id)).length
          = 1
      ∧ db1.messages = db.messages := by
  refine ⟨_, _, _, delete_for_me_inserts c db message_id user_id m hm h0,
    delete_for_me_noop c _ message_id user_id m
      { user_id := user_id, message_id := message_id, deleted_at := db.clock }
      hm ?_, ?_, rfl⟩
  · show (db.user_deleted_messages ++
        [({ user_id := user_id, message_id := message_id,
            deleted_at := db.clock } : UserDeletedMessage)]).find?
        (fun r => r.user_id == user_id && r.message_id == message_id)
      = some { user_id := user_id, message_id := message_id,
               deleted_at := db.clock }
    rw [List.find?_append, h0]
    simp
  · show ((db.user_deleted_messages ++
        [({ user_id := user_id, message_id := message_id,
            deleted_at := db.clock } : UserDeletedMessage)]).filter
        (fun r => r.user_id == user_id && r.message_id == message_id)).length
      = 1
    rw [List.filter_append,
      List.filter_eq_nil_iff.mpr (List.find?_eq_none.mp h0)]
    simp

/-- C9 witness: the double for-me deletion evaluated for user 2 on the
single message of `dbTwo`. -/
theorem C9_delete_for_me_idempotent_witness :
    ∃ db1 r1 r2,
      MessageService.delete_message gCipher dbTwo 1 2 "for_me" = .ok (db1, r1)
      ∧ MessageService.delete_message gCipher db1 1 2 "for_me" = .ok (db1, r2)
      ∧ (db1.user_deleted_messages.filter
          (fun r => r.user_id == 2 && r.message_id == 1)).length = 1
      ∧ db1.messages = dbTwo.messages :=
  C9_delete_for_me_idempotent gCipher dbTwo 1 2
    { id := 1, content := "ghi", conversation_id := 1, sender_id := 1,
      created_at := 0, file_path := none, file_type := none,
      fully_read_at := none, is_deleted := false, is_edited := false,
      is_read := false } (by decide) (by decide)

theorem sortByCreated_eq_self {l : List Message}
    (h : l.Pairwise (fun a b => a.created_at < b.created_at)) :
    sortByCreated l = l := by
  induction l with
  | nil => rfl
  | cons x xs ih =>
    rw [sortByCreated, ih h.of_cons]
    cases xs with
    | nil => rfl
    | cons y ys =>
      simp only [insertByCreated]
      rw [if_pos (le_of_lt (List.rel_of_pairwise_cons h
        (List.mem_cons_self y ys)))]

theorem lastN_reverse_take (n : Nat) (l : List α) :
    (l.reverse.take n).reverse = lastN n l := by
  rw [List.take_reverse, List.reverse_reverse, lastN]

theorem get_messages_ok (c : FernetCipher) (st : Settings) (db : DB)
    (conversation_id user_id : Nat) (limit : Option Nat) (cv : Conversation)
    (hfind : db.conversations.find? (fun v => v.id == conversation_id)
      = some cv)
    (hmem : user_id ∈ cv.participants) :
    MessageService.get_conversation_messages c st db conversation_id user_id
      limit
      = .ok ((((sortByCreated (db.messages.filter (fun m =>
          m.conversation_id == conversation_id &&
          !(((db.user_deleted_messages.filter
                (fun r => r.user_id == user_id)).map
              (fun r => r.message_id)).contains m.id)))).reverse.take
            (limit.getD st.MAX_MESSAGES_PER_CONVERSATION)).reverse).map
          (MessageService.message_to_response c db)) := by
  simp [MessageService.get_conversation_messages, hfind, hmem]

/-- C7: listMessages fails with NotFound when the conversation is missing
and Forbidden when the requester is not a participant; otherwise it
returns at most `limit` (default: the configured ceiling) of the most
recent visible messages, ordered oldest to newest, each the decryption of
a stored row, excluding every message the requester marked
deleted-for-me. -/
theorem C7_list_messages (c : FernetCipher) (st : Settings) (db : DB)
    (conversation_id user_id : Nat) (limit : Option Nat)
    (hsort : db.messages.Pairwise (fun a b => a.created_at < b.created_at)) :
    (db.conversations.find? (fun cv => cv.id == conversation_id) = none →
      MessageService.get_conversation_messages c st db conversation_id user_id
        limit = .error .notFound)
    ∧ (∀ cv, db.conversations.find? (fun v => v.id == conversation_id)
          = some cv →
        user_id ∉ cv.participants →
        MessageService.get_conversation_messages c st db conversation_id
          user_id limit = .error .forbidden)
    ∧ (∀ cv, db.conversations.find? (fun v => v.id == conversation_id)
          = some cv →
        user_id ∈ cv.participants →
        ∃ rs, MessageService.get_conversation_messages c st db conversation_id
            user_id limit = .ok rs
          ∧ rs.map (fun r => r.id)
              = lastN (limit.getD st.MAX_MESSAGES_PER_CONVERSATION)
                ((db.messages.filter (fun m =>
                  m.conversation_id == conversation_id &&
                  !(((db.user_deleted_messages.filter
                        (fun r => r.user_id == user_id)).map
                      (fun r => r.message_id)).contains m.id))).map
                  (fun m => m.id))
          ∧ rs.length ≤ limit.getD st.MAX_MESSAGES_PER_CONVERSATION
          ∧ rs.Pairwise (fun a b => a.created_at ≤ b.created_at)
          ∧ (∀ r ∈ rs, ∃ m ∈ db.messages, r.id = m.id ∧
              r.content = MessageEncryption.decrypt c m.content)
          ∧ (∀ r ∈ rs, ∀ row ∈ db.user_deleted_messages,
              row.user_id = user_id → row.message_id ≠ r.id)) := by
  refine ⟨?_, ?_, ?_⟩
  · intro h
    simp [MessageService.get_conversation_messages, h]
  · intro cv h hnm
    simp [MessageService.get_conversation_messages, h, hnm]
  · intro cv h hm
    have hvsort : (db.messages.filter (fun m =>
        m.conversation_id == conversation_id &&
        !(((db.user_deleted_messages.filter
              (fun r => r.user_id == user_id)).map
            (fun r => r.message_id)).contains m.id))).Pairwise
        (fun a b => a.created_at < b.created_at) :=
      hsort.sublist (List.filter_sublist _)
    have heq := get_messages_ok c st db conversation_id user_id limit cv h hm
    rw [sortByCreated_eq_self hvsort, lastN_reverse_take] at heq
    refine ⟨_, heq, ?_, ?_, ?_, ?_, ?_⟩
    · rw [List.map_map,
        show ((fun r : MessageResponse => r.id) ∘
            MessageService.message_to_response c db)
          = (fun m : Message => m.id) from rfl,
        lastN, lastN, List.map_drop, List.length_map]
    · rw [List.length_map, lastN, List.length_drop]
      omega
    · rw [List.pairwise_map]
      exact ((hvsort.sublist (List.drop_sublist _ _)).imp le_of_lt)
    · intro r hr
      obtain ⟨m, hmp, hmr⟩ := List.mem_map.mp hr
      have hmv := List.drop_subset _ _ hmp
      refine ⟨m, List.mem_of_mem_filter hmv, ?_, ?_⟩
      · rw [← hmr]
        rfl
      · rw [← hmr]
        rfl
    · intro r hr row hrow hru hrid
      obtain ⟨m, hmp, hmr⟩ := List.mem_map.mp hr
      have hmv := List.drop_subset _ _ hmp
      have hpred := List.of_mem_filter hmv
      rw [Bool.and_eq_true] at hpred
      have hcon : (((db.user_deleted_messages.filter
            (fun r => r.user_id == user_id)).map
          (fun r => r.message_id)).contains m.id) = true := by
        apply List.elem_eq_true_of_mem
        refine List.mem_map.mpr ⟨row, List.mem_filter.mpr ⟨hrow, ?_⟩, ?_⟩
        · simp [hru]
        · rw [hrid, ← hmr]
          rfl
      rw [hcon] at hpred
      simp at hpred

/-- C7 witness: the NotFound case and a successful listing evaluated on
`dbTwo`. -/
theorem C7_list_messages_witness :
    MessageService.get_conversation_messages gCipher ⟨1000⟩ dbTwo 99 1 none
      = .error .notFound
    ∧ ∃ rs, MessageService.get_conversation_messages gCipher ⟨1000⟩ dbTwo 1 2
        none = .ok rs := by
  constructor
  · exact (C7_list_messages gCipher ⟨1000⟩ dbTwo 99 1 none (by decide)).1
      (by decide)
  · obtain ⟨rs, hrs, -⟩ :=
      (C7_list_messages gCipher ⟨1000⟩ dbTwo 1 2 none (by decide)).2.2
        ⟨1, none, false, [1, 2]⟩ (by decide) (by decide)
    exact ⟨rs, hrs⟩

theorem lastN_of_le {l : List α} {n : Nat} (h : l.length ≤ n) :
    lastN n l = l := by
  rw [lastN, Nat.sub_eq_zero_of_le h, List.drop_zero]

theorem lastN_length_le (n : Nat) (l : List α) : (lastN n l).length ≤ n := by
  rw [lastN, List.length_drop]
  omega

theorem lastN_map (f : α → β) (n : Nat) (l : List α) :
    (lastN n l).map f = lastN n (l.map f) := by
  rw [lastN, lastN, List.map_drop, List.length_map]

theorem lastN_absorb (C : Nat) (w r : List α) :
    lastN C (lastN C w ++ r) = lastN C (w ++ r) := by
  have h : ∀ l : List α, lastN C l = (l.reverse.take C).reverse :=
    fun l => (lastN_reverse_take C l).symm
  rw [h w, h ((w.reverse.take C).reverse ++ r), h (w ++ r)]
  congr 1
  rw [List.reverse_append, List.reverse_reverse, List.reverse_append]
  rw [List.take_append_eq_append_take, List.take_append_eq_append_take]
  congr 1
  rw [List.take_take, Nat.min_eq_left (Nat.sub_le C _)]

theorem filter_not_take_ids (l : List Message) (k : Nat)
    (hnd : (l.map (fun m => m.id)).Nodup) :
    l.filter (fun m => !(((l.take k).map (fun m => m.id)).contains m.id))
      = l.drop k := by
  have hsplit : l.take k ++ l.drop k = l := List.take_append_drop k l
  have hnd2 : ((l.take k).map (fun m => m.id)
      ++ (l.drop k).map (fun m => m.id)).Nodup := by
    rw [← List.map_append, hsplit]
    exact hnd
  obtain ⟨-, -, hdisj⟩ := List.nodup_append.mp hnd2
  have hstep : l.filter
        (fun m => !(((l.take k).map (fun m => m.id)).contains m.id))
      = (l.take k ++ l.drop k).filter
        (fun m => !(((l.take k).map (fun m => m.id)).contains m.id)) := by
    rw [hsplit]
  rw [hstep, List.filter_append]
  have h1 : (l.take k).filter
      (fun m => !(((l.take k).map (fun m => m.id)).contains m.id)) = [] := by
    rw [List.filter_eq_nil_iff]
    intro m hm hcon
    rw [Bool.not_eq_true', Bool.eq_false_iff] at hcon
    exact hcon (List.elem_eq_true_of_mem (List.mem_map.mpr ⟨m, hm, rfl⟩))
  have h2 : (l.drop k).filter
      (fun m => !(((l.take k).map (fun m => m.id)).contains m.id))
      = l.drop k := by
    rw [List.filter_eq_self]
    intro m hm
    rw [Bool.not_eq_true', Bool.eq_false_iff]
    intro hcon
    exact hdisj (List.mem_of_elem_eq_true hcon)
      (List.mem_map.mpr ⟨m, hm, rfl⟩)
  rw [h1, h2, List.nil_append]

theorem prune_characterization (st : Settings) (db : DB) (cid : Nat)
    (hnd : (db.messages.map (fun m => m.id)).Nodup)
    (hsorted : (db.messages.filter
      (fun m => m.conversation_id == cid)).Pairwise
      (fun a b => a.created_at < b.created_at)) :
    ((MessageService.prune_old_messages st db cid).messages.filter
        (fun m => m.conversation_id == cid)
      = lastN st.MAX_MESSAGES_PER_CONVERSATION
          (db.messages.filter (fun m => m.conversation_id == cid)))
    ∧ ((MessageService.prune_old_messages st db cid).messages.filter
        (fun m => !(m.conversation_id == cid))
      = db.messages.filter (fun m => !(m.conversation_id == cid)))
    ∧ (MessageService.prune_old_messages st db cid).messages.Sublist
        db.messages
    ∧ (MessageService.prune_old_messages st db cid).conversations
        = db.conversations
    ∧ (MessageService.prune_old_messages st db cid).users = db.users
    ∧ (MessageService.prune_old_messages st db cid).next_message_id
        = db.next_message_id
    ∧ (MessageService.prune_old_messages st db cid).clock = db.clock
    ∧ (MessageService.prune_old_messages st db cid).user_deleted_messages
        = db.user_deleted_messages
    ∧ (MessageService.prune_old_messages st db cid).next_conversation_id
        = db.next_conversation_id := by
  have hsub : ((db.messages.filter (fun m => m.conversation_id == cid)).map
      (fun m => m.id)).Sublist (db.messages.map (fun m => m.id)) :=
    List.Sublist.map (fun m => m.id) (List.filter_sublist db.messages)
  have hlnd := hnd.sublist hsub
  simp only [MessageService.prune_old_messages]
  by_cases hover : (db.messages.filter
      (fun m => m.conversation_id == cid)).length
      > st.MAX_MESSAGES_PER_CONVERSATION
  · rw [if_pos hover, sortByCreated_eq_self hsorted]
    refine ⟨?_, ?_, List.filter_sublist _, rfl, rfl, rfl, rfl, rfl, rfl⟩
    · rw [List.filter_comm, filter_not_take_ids _ _ hlnd, lastN]
    · rw [List.filter_comm, List.filter_eq_self]
      intro m hm
      rw [Bool.not_eq_true', Bool.eq_false_iff]
      intro hcon
      obtain ⟨m2, hm2, hid⟩ := List.mem_map.mp
        (List.mem_of_elem_eq_true hcon)
      have hm2f := List.mem_of_mem_take hm2
      have heqm : m2 = m := List.inj_on_of_nodup_map hnd
        (List.mem_of_mem_filter hm2f) (List.mem_of_mem_filter hm) hid
      have hp2 := List.of_mem_filter hm2f
      have hp := List.of_mem_filter hm
      rw [heqm] at hp2
      rw [hp2] at hp
      simp at hp
  · rw [if_neg hover]
    refine ⟨(lastN_of_le (Nat.le_of_not_lt hover)).symm, rfl,
      List.Sublist.refl _, rfl, rfl, rfl, rfl, rfl, rfl⟩

theorem create_message_step (c : FernetCipher) (st : Settings) (db : DB)
    (cid sender : Nat) (content : String) (fp ft : Option String)
    (cv : Conversation)
    (hfind : db.conversations.find? (fun v => v.id == cid) = some cv)
    (hmem : sender ∈ cv.participants)
    (hinv : DBInv db) :
    ∃ db2 resp,
      MessageService.create_message c st db cid sender content fp ft
        = .ok (db2, resp)
      ∧ (db2.messages.filter (fun m => m.conversation_id == cid)).map
          (fun m => m.id)
        = lastN st.MAX_MESSAGES_PER_CONVERSATION
            (((db.messages.filter (fun m => m.conversation_id == cid)).map
              (fun m => m.id)) ++ [db.next_message_id])
      ∧ db2.conversations = db.conversations
      ∧ db2.next_message_id = db.next_message_id + 1
      ∧ DBInv db2 := by
  have hcreate : MessageService.create_message c st db cid sender content fp ft
      = .ok (MessageService.prune_old_messages st
          { db with
            messages := db.messages ++
              [{ id := db.next_message_id
                 content := MessageEncryption.encrypt c content
                 conversation_id := cid
                 sender_id := sender
                 created_at := db.clock
                 file_path := fp
                 file_type := ft
                 fully_read_at := none
                 is_deleted := false
                 is_edited := false
                 is_read := false }]
            next_message_id := db.next_message_id + 1
            clock := db.clock + 1 } cid,
        MessageService.message_to_response c
          (MessageService.prune_old_messages st
            { db with
              messages := db.messages ++
                [{ id := db.next_message_id
                   content := MessageEncryption.encrypt c content
                   conversation_id := cid
                   sender_id := sender
                   created_at := db.clock
                   file_path := fp
                   file_type := ft
                   fully_read_at := none
                   is_deleted := false
                   is_edited := false
                   is_read := false }]
              next_message_id := db.next_message_id + 1
              clock := db.clock + 1 } cid)
          { id := db.next_message_id
            content := MessageEncryption.encrypt c content
            conversation_id := cid
            sender_id := sender
            created_at := db.clock
            file_path := fp
            file_type := ft
            fully_read_at := none
            is_deleted := false
            is_edited := false
            is_read := false }) := by
    simp [MessageService.create_message, hfind, hmem]
  set nm : Message :=
    { id := db.next_message_id
      content := MessageEncryption.encrypt c content
      conversation_id := cid
      sender_id := sender
      created_at := db.clock
      file_path := fp
      file_type := ft
      fully_read_at := none
      is_deleted := false
      is_edited := false
      is_read := false } with hnm
  set db1 : DB :=
    { db with
      messages := db.messages ++ [nm]
      next_message_id := db.next_message_id + 1
      clock := db.clock + 1 } with hdb1
  have hmsgs1 : db1.messages = db.messages ++ [nm] := rfl
  have hfilter1 : db1.messages.filter (fun m => m.conversation_id == cid)
      = db.messages.filter (fun m => m.conversation_id == cid) ++ [nm] := by
    rw [hmsgs1, List.filter_append]
    congr 1
    simp [hnm]
  have hsorted1 : db1.messages.Pairwise
      (fun a b => a.created_at < b.created_at) := by
    rw [hmsgs1]
    rw [List.pairwise_append]
    refine ⟨hinv.msg_sorted, by simp, ?_⟩
    intro a ha b hb
    rw [List.mem_singleton] at hb
    rw [hb, hnm]
    exact hinv.msg_created_lt a ha
  have hnd1 : (db1.messages.map (fun m => m.id)).Nodup := by
    rw [hmsgs1, List.map_append]
    rw [List.nodup_append]
    refine ⟨hinv.msg_ids_nodup, by simp, ?_⟩
    intro a ha hb
    simp only [hnm, List.map_cons, List.map_nil, List.mem_singleton] at hb
    obtain ⟨m, hmm, hmid⟩ := List.mem_map.mp ha
    have := hinv.msg_ids_lt m hmm
    omega
  have hsortf1 : (db1.messages.filter
      (fun m => m.conversation_id == cid)).Pairwise
      (fun a b => a.created_at < b.created_at) :=
    hsorted1.sublist (List.filter_sublist _)
  obtain ⟨hA, hB, hsub, hconv, husers, hnextm, hclock, huds, hnextc⟩ :=
    prune_characterization st db1 cid hnd1 hsortf1
  refine ⟨MessageService.prune_old_messages st db1 cid, _, hcreate, ?_, ?_,
    ?_, ?_⟩
  · rw [hA, hfilter1, lastN_map, List.map_append]
    congr 1
  · rw [hconv]
  · rw [hnextm]
  · refine ⟨?_, ?_, ?_, ?_, ?_, ?_, ?_, ?_⟩
    · exact hnd1.sublist (List.Sublist.map (fun m => m.id) hsub)
    · intro m hmm
      rw [hnextm]
      rcases List.mem_append.mp (hsub.subset hmm) with h | h
      · have := hinv.msg_ids_lt m h
        show m.id < db.next_message_id + 1
        omega
      · rw [List.mem_singleton] at h
        rw [h]
        show db.next_message_id < db.next_message_id + 1
        omega
    · intro m hmm
      rw [hclock]
      rcases List.mem_append.mp (hsub.subset hmm) with h | h
      · have := hinv.msg_created_lt m h
        show m.created_at < db.clock + 1
        omega
      · rw [List.mem_singleton] at h
        rw [h]
        show db.clock < db.clock + 1
        omega
    · exact hsorted1.sublist hsub
    · rw [hconv]
      exact hinv.conv_ids_nodup
    · rw [hconv, hnextc]
      exact hinv.conv_ids_lt
    · rw [hconv]
      exact hinv.conv_participants_nodup
    · rw [husers]
      exact hinv.user_ids_nodup

theorem range_map_shift (next n : Nat) :
    [next] ++ (List.range n).map (fun k => next + 1 + k)
      = (List.range (n + 1)).map (fun k => next + k) := by
  rw [List.range_succ_eq_map, List.map_cons, List.map_map,
    List.singleton_append]
  congr 1
  refine List.map_congr_left ?_
  intro k hk
  simp only [Function.comp_apply]
  omega

theorem createMany_spec (c : FernetCipher) (st : Settings) (cid sender : Nat)
    (contents : List String) :
    ∀ (db : DB) (cv : Conversation),
      db.conversations.find? (fun v => v.id == cid) = some cv →
      sender ∈ cv.participants →
      DBInv db →
      (db.messages.filter (fun m => m.conversation_id == cid)).length
        ≤ st.MAX_MESSAGES_PER_CONVERSATION →
      ∃ dbN, createMany c st db cid sender contents = .ok dbN
        ∧ (dbN.messages.filter (fun m => m.conversation_id == cid)).map
            (fun m => m.id)
          = lastN st.MAX_MESSAGES_PER_CONVERSATION
              (((db.messages.filter (fun m => m.conversation_id == cid)).map
                (fun m => m.id))
                ++ (List.range contents.length).map
                  (fun k => db.next_message_id + k)) := by
  induction contents with
  | nil =>
    intro db cv hf hm hi hle
    refine ⟨db, rfl, ?_⟩
    simp only [List.length_nil, List.range_zero, List.map_nil,
      List.append_nil]
    refine (lastN_of_le ?_).symm
    rw [List.length_map]
    exact hle
  | cons s rest ih =>
    intro db cv hf hm hi hle
    obtain ⟨db2, resp, hcreate, hfilter, hconv, hnext, hinv2⟩ :=
      create_message_step c st db cid sender s none none cv hf hm hi
    have hf2 : db2.conversations.find? (fun v => v.id == cid) = some cv := by
      rw [hconv]
      exact hf
    have hle2 : (db2.messages.filter
        (fun m => m.conversation_id == cid)).length
        ≤ st.MAX_MESSAGES_PER_CONVERSATION := by
      have h1 : (db2.messages.filter
          (fun m => m.conversation_id == cid)).length
          = ((db2.messages.filter (fun m => m.conversation_id == cid)).map
            (fun m => m.id)).length := (List.length_map _ _).symm
      rw [h1, hfilter]
      exact lastN_length_le _ _
    obtain ⟨dbN, hmany, hfinal⟩ := ih db2 cv hf2 hm hinv2 hle2
    refine ⟨dbN, ?_, ?_⟩
    · simp only [createMany, hcreate]
      exact hmany
    · rw [hfinal, hnext, hfilter, lastN_absorb, List.append_assoc,
        List.length_cons]
      exact congrArg (lastN st.MAX_MESSAGES_PER_CONVERSATION)
        (congrArg (fun l => _ ++ l)
          (range_map_shift db.next_message_id rest.length))

/-- C5: starting from a conversation with no messages, after N successful
`create_message` calls with N above the configured ceiling C, exactly C
message rows remain for that conversation and they are the C most recent
by creation order; and pruning itself, on any well-formed database state
(whatever the delete or read flags of its rows), keeps exactly the last C
messages of that conversation and leaves every other conversation's rows
untouched, running synchronously inside every successful create. -/
theorem C5_pruning (c : FernetCipher) (st : Settings) (db : DB)
    (conversation_id sender_id : Nat) (cv : Conversation)
    (contents : List String)
    (hfind : db.conversations.find? (fun v => v.id == conversation_id)
      = some cv)
    (hmem : sender_id ∈ cv.participants)
    (hinv : DBInv db)
    (hempty : db.messages.filter
      (fun m => m.conversation_id == conversation_id) = [])
    (hover : contents.length > st.MAX_MESSAGES_PER_CONVERSATION) :
    (∃ dbN, createMany c st db conversation_id sender_id contents = .ok dbN
      ∧ (dbN.messages.filter
            (fun m => m.conversation_id == conversation_id)).map
            (fun m => m.id)
          = ((List.range contents.length).drop
              (contents.length - st.MAX_MESSAGES_PER_CONVERSATION)).map
              (fun k => db.next_message_id + k)
      ∧ (dbN.messages.filter
            (fun m => m.conversation_id == conversation_id)).length
          = st.MAX_MESSAGES_PER_CONVERSATION)
    ∧ (∀ db2 : DB, DBInv db2 →
        ((MessageService.prune_old_messages st db2 conversation_id).messages.filter
            (fun m => m.conversation_id == conversation_id)
          = lastN st.MAX_MESSAGES_PER_CONVERSATION
              (db2.messages.filter
                (fun m => m.conversation_id == conversation_id)))
        ∧ (MessageService.prune_old_messages st db2
              conversation_id).messages.filter
            (fun m => !(m.conversation_id == conversation_id))
          = db2.messages.filter
            (fun m => !(m.conversation_id == conversation_id))) := by
  constructor
  · obtain ⟨dbN, hmany, hfinal⟩ := createMany_spec c st conversation_id
      sender_id contents db cv hfind hmem hinv (by rw [hempty]; simp)
    rw [hempty] at hfinal
    simp only [List.map_nil, List.nil_append] at hfinal
    have hlast : lastN st.MAX_MESSAGES_PER_CONVERSATION
        ((List.range contents.length).map
          (fun k => db.next_message_id + k))
        = ((List.range contents.length).drop
            (contents.length - st.MAX_MESSAGES_PER_CONVERSATION)).map
            (fun k => db.next_message_id + k) := by
      rw [lastN, List.length_map, List.length_range, List.map_drop]
    refine ⟨dbN, hmany, by rw [hfinal, hlast], ?_⟩
    have h1 : (dbN.messages.filter
        (fun m => m.conversation_id == conversation_id)).length
        = ((dbN.messages.filter
            (fun m => m.conversation_id == conversation_id)).map
          (fun m => m.id)).length := (List.length_map _ _).symm
    rw [h1, hfinal, hlast, List.length_map, List.length_drop,
      List.length_range]
    omega
  · intro db2 hinv2
    have hsortf : (db2.messages.filter
        (fun m => m.conversation_id == conversation_id)).Pairwise
        (fun a b => a.created_at < b.created_at) :=
      hinv2.msg_sorted.sublist (List.filter_sublist _)
    obtain ⟨hA, hB, -, -, -, -, -, -, -⟩ :=
      prune_characterization st db2 conversation_id hinv2.msg_ids_nodup
        hsortf
    exact ⟨hA, hB⟩

/-- C5 witness: three creates against a ceiling of 2 in an initially empty
conversation leave exactly the 2 most recent messages. -/
theorem C5_pruning_witness :
    ∃ dbN, createMany gCipher ⟨2⟩ dbConvEmpty 1 1 ["a", "b", "c"] = .ok dbN
      ∧ (dbN.messages.filter (fun m => m.conversation_id == 1)).map
          (fun m => m.id) = [2, 3]
      ∧ (dbN.messages.filter (fun m => m.conversation_id == 1)).length = 2 := by
  obtain ⟨⟨dbN, hmany, hids, hlen⟩, -⟩ :=
    C5_pruning gCipher ⟨2⟩ dbConvEmpty 1 1 ⟨1, none, false, [1, 2]⟩
      ["a", "b", "c"] (by decide) (by decide)
      ⟨by decide, by decide, by decide, by decide, by decide, by decide,
       by decide, by decide⟩ (by decide) (by decide)
  exact ⟨dbN, hmany, by rw [hids]; decide, hlen⟩

theorem mem_dedupFirst {x : Nat} {seen l : List Nat} :
    x ∈ dedupFirst seen l ↔ x ∈ l ∧ x ∉ seen := by
  induction l generalizing seen with
  | nil => simp [dedupFirst]
  | cons a t ih =>
    simp only [dedupFirst]
    split
    · rename_i ha
      rw [ih]
      constructor
      · rintro ⟨hx, hn⟩
        exact ⟨List.mem_cons_of_mem a hx, hn⟩
      · rintro ⟨hx, hn⟩
        rcases List.mem_cons.mp hx with rfl | hx2
        · exact absurd ha hn
        · exact ⟨hx2, hn⟩
    · rename_i ha
      rw [List.mem_cons, ih]
      constructor
      · rintro (rfl | ⟨hx, hn⟩)
        · exact ⟨List.mem_cons_self _ _, ha⟩
        · rw [List.mem_cons] at hn
          push_neg at hn
          exact ⟨List.mem_cons_of_mem a hx, hn.2⟩
      · rintro ⟨hx, hn⟩
        by_cases hxa : x = a
        · exact Or.inl hxa
        · rcases List.mem_cons.mp hx with rfl | hx2
          · exact Or.inl rfl
          · refine Or.inr ⟨hx2, ?_⟩
            rw [List.mem_cons]
            push_neg
            exact ⟨hxa, hn⟩

theorem nodup_dedupFirst (seen l : List Nat) : (dedupFirst seen l).Nodup := by
  induction l generalizing seen with
  | nil => simp [dedupFirst]
  | cons a t ih =>
    simp only [dedupFirst]
    split
    · exact ih seen
    · refine List.Nodup.cons ?_ (ih (a :: seen))
      intro hmem
      exact (mem_dedupFirst.mp hmem).2 (List.mem_cons_self a seen)

theorem toFinset_dedupFirst (l : List Nat) :
    (dedupFirst [] l).toFinset = l.toFinset := by
  ext x
  simp [List.mem_toFinset, mem_dedupFirst]

theorem length_dedupFirst (l : List Nat) :
    (dedupFirst [] l).length = l.toFinset.card := by
  rw [← toFinset_dedupFirst, List.toFinset_card_of_nodup (nodup_dedupFirst [] l)]

theorem contains_congr {l1 l2 : List Nat} (h : ∀ x, x ∈ l1 ↔ x ∈ l2)
    (i : Nat) : l1.contains i = l2.contains i := by
  by_cases hi : i ∈ l1
  · show l1.elem i = l2.elem i
    rw [List.elem_eq_true_of_mem hi, List.elem_eq_true_of_mem ((h i).mp hi)]
  · have hi2 : i ∉ l2 := fun hc => hi ((h i).mpr hc)
    cases hc1 : l1.contains i with
    | false =>
      cases hc2 : l2.contains i with
      | false => rfl
      | true => exact absurd (List.mem_of_elem_eq_true hc2) hi2
    | true => exact absurd (List.mem_of_elem_eq_true hc1) hi

theorem dedupFirst_pair (a b : Nat) (h : b ≠ a) :
    dedupFirst [] [a, b] = [a, b] := by
  simp [dedupFirst, h]

theorem validate_direct (name : Option String) (o : Nat) :
    ConversationCreate.validate_conversation name false [o]
      = .ok (none, [o]) := by
  simp [ConversationCreate.validate_conversation, dedupFirst]

theorem createConversation_of_validate (db : DB) (pids : List Nat)
    (g : Bool) (name : Option String) (creator : Nat) (nm : Option String)
    (ids : List Nat)
    (hval : ConversationCreate.validate_conversation name g pids
      = .ok (nm, ids)) :
    createConversation db pids g name creator
      = ConversationService.create_conversation db ids g nm creator := by
  unfold createConversation
  rw [hval]
  rfl

theorem service_direct_branch (db : DB) (ids : List Nat) (nm : Option String)
    (creator : Nat)
    (hpl : ((db.users.map (fun u => u.id)).filter
        (fun i => (dedupFirst [] (ids ++ [creator])).contains i)).length
      = (dedupFirst [] (ids ++ [creator])).length)
    (h2 : ((db.users.map (fun u => u.id)).filter
        (fun i => (dedupFirst [] (ids ++ [creator])).contains i)).length
      = 2) :
    ConversationService.create_conversation db ids false nm creator
      = (match ConversationService.find_existing_direct_conversation db
            ((db.users.map (fun u => u.id)).filter
              (fun i => (dedupFirst [] (ids ++ [creator])).contains i)) with
         | some cv => .ok (db, cv)
         | none =>
           .ok ({ db with
               conversations := db.conversations ++
                 [{ id := db.next_conversation_id, name := nm,
                    is_group := false,
                    participants := (db.users.map (fun u => u.id)).filter
                      (fun i =>
                        (dedupFirst [] (ids ++ [creator])).contains i) }]
               next_conversation_id := db.next_conversation_id + 1 },
             { id := db.next_conversation_id, name := nm, is_group := false,
               participants := (db.users.map (fun u => u.id)).filter
                 (fun i =>
                   (dedupFirst [] (ids ++ [creator])).contains i) })) := by
  simp only [ConversationService.create_conversation]
  rw [if_neg (fun hne => hne hpl), if_pos ⟨by simp, h2⟩]

theorem service_group_branch (db : DB) (ids : List Nat) (nm : Option String)
    (creator : Nat)
    (hpl : ((db.users.map (fun u => u.id)).filter
        (fun i => (dedupFirst [] (ids ++ [creator])).contains i)).length
      = (dedupFirst [] (ids ++ [creator])).length) :
    ConversationService.create_conversation db ids true nm creator
      = (match ConversationService.find_existing_group_conversation db
            ((db.users.map (fun u => u.id)).filter
              (fun i => (dedupFirst [] (ids ++ [creator])).contains i)) with
         | some cv => .ok (db, cv)
         | none =>
           .ok ({ db with
               conversations := db.conversations ++
                 [{ id := db.next_conversation_id, name := nm,
                    is_group := true,
                    participants := (db.users.map (fun u => u.id)).filter
                      (fun i =>
                        (dedupFirst [] (ids ++ [creator])).contains i) }]
               next_conversation_id := db.next_conversation_id + 1 },
             { id := db.next_conversation_id, name := nm, is_group := true,
               participants := (db.users.map (fun u => u.id)).filter
                 (fun i =>
                   (dedupFirst [] (ids ++ [creator])).contains i) })) := by
  simp only [ConversationService.create_conversation]
  rw [if_neg (fun hne => hne hpl), if_neg (by simp), if_pos (by simp)]

theorem find_direct_spec_none (db : DB) (pids : List Nat)
    (hlen : pids.length = 2)
    (hle : ∀ cv ∈ db.conversations, cv.is_group = false →
      cv.participants.length ≤ 2)
    (hnone : ConversationService.find_existing_direct_conversation db pids
      = none) :
    db.conversations.find? (fun cv => cv.is_group == false &&
      (cv.participants.filter (fun p => pids.contains p)).length == 2)
      = none := by
  unfold ConversationService.find_existing_direct_conversation at hnone
  rw [if_neg (fun h => h hlen)] at hnone
  cases hf : db.conversations.find? (fun cv => cv.is_group == false &&
      (cv.participants.filter (fun p => pids.contains p)).length == 2) with
  | none => rfl
  | some cv =>
    have hp := List.find?_some hf
    rw [Bool.and_eq_true, beq_iff_eq, beq_iff_eq] at hp
    have hmemcv := List.mem_of_find?_eq_some hf
    have hfle : (cv.participants.filter
        (fun p => pids.contains p)).length ≤ cv.participants.length :=
      List.length_filter_le _ _
    have hlen2 : cv.participants.length = 2 := by
      have := hle cv hmemcv hp.1
      omega
    rw [hf] at hnone
    simp [hlen2] at hnone

theorem find_direct_append (db2 : DB) (convs : List Conversation)
    (pids : List Nat) (newcv : Conversation)
    (hconvs : db2.conversations = convs ++ [newcv])
    (hlen : pids.length = 2)
    (hnone : convs.find? (fun cv => cv.is_group == false &&
      (cv.participants.filter (fun p => pids.contains p)).length == 2)
      = none)
    (hg : newcv.is_group = false)
    (hparts : (newcv.participants.filter
      (fun p => pids.contains p)).length = 2)
    (hlen2 : newcv.participants.length = 2) :
    ConversationService.find_existing_direct_conversation db2 pids
      = some newcv := by
  unfold ConversationService.find_existing_direct_conversation
  rw [if_neg (fun h => h hlen), hconvs, List.find?_append, hnone]
  have hpred : (newcv.is_group == false &&
      ((newcv.participants.filter
        (fun p => pids.contains p)).length == 2)) = true := by
    rw [Bool.and_eq_true, beq_iff_eq, beq_iff_eq]
    exact ⟨hg, hparts⟩
  have hfind1 : List.find? (fun cv => cv.is_group == false &&
      (List.filter (fun p => pids.contains p) cv.participants).length == 2)
      [newcv] = some newcv := List.find?_cons_of_pos [] hpred
  rw [hfind1]
  simp [hlen2]

theorem direct_create_twice (db : DB) (c1 o1 c2 o2 : Nat)
    (name1 name2 : Option String)
    (h1 : c1 ≠ o1) (hne2 : c2 ≠ o2)
    (hset : ∀ x, x ∈ ([o1, c1] : List Nat) ↔ x ∈ ([o2, c2] : List Nat))
    (hle : ∀ cv ∈ db.conversations, cv.is_group = false →
      cv.participants.length ≤ 2)
    (db1 : DB) (cv1 : Conversation)
    (hc1 : createConversation db [o1] false name1 c1 = .ok (db1, cv1)) :
    ∃ db2 cv2, createConversation db1 [o2] false name2 c2 = .ok (db2, cv2)
      ∧ cv2.id = cv1.id := by
  have hd1 : dedupFirst [] ([o1] ++ [c1]) = [o1, c1] := by
    rw [List.singleton_append]
    exact dedupFirst_pair o1 c1 h1
  have hd2 : dedupFirst [] ([o2] ++ [c2]) = [o2, c2] := by
    rw [List.singleton_append]
    exact dedupFirst_pair o2 c2 hne2
  rw [createConversation_of_validate db [o1] false name1 c1 none [o1]
    (validate_direct name1 o1)] at hc1
  simp only [ConversationService.create_conversation, hd1] at hc1
  by_cases hcond : ((db.users.map (fun u => u.id)).filter
      (fun i => ([o1, c1] : List Nat).contains i)).length
      ≠ ([o1, c1] : List Nat).length
  · rw [if_pos hcond] at hc1
    exact absurd hc1 (by simp)
  · rw [if_neg hcond] at hc1
    push_neg at hcond
    have hP2 : ((db.users.map (fun u => u.id)).filter
        (fun i => ([o1, c1] : List Nat).contains i)).length = 2 := hcond
    rw [if_pos ⟨by simp, hP2⟩] at hc1
    have hP12 : (db.users.map (fun u => u.id)).filter
        (fun i => ([o2, c2] : List Nat).contains i)
        = (db.users.map (fun u => u.id)).filter
        (fun i => ([o1, c1] : List Nat).contains i) :=
      List.filter_congr (fun i _ => contains_congr (fun x => (hset x).symm) i)
    have hpl2 : ((db.users.map (fun u => u.id)).filter
        (fun i => (dedupFirst [] ([o2] ++ [c2])).contains i)).length
        = (dedupFirst [] ([o2] ++ [c2])).length := by
      rw [hd2, hP12, hP2]
      rfl
    have h22 : ((db.users.map (fun u => u.id)).filter
        (fun i => (dedupFirst [] ([o2] ++ [c2])).contains i)).length = 2 := by
      rw [hd2, hP12, hP2]
    cases hfd : ConversationService.find_existing_direct_conversation db
        ((db.users.map (fun u => u.id)).filter
          (fun i => ([o1, c1] : List Nat).contains i)) with
    | some cv =>
      rw [hfd] at hc1
      simp only [Except.ok.injEq, Prod.mk.injEq] at hc1
      obtain ⟨hdb1, hcv1⟩ := hc1
      subst hdb1
      subst hcv1
      refine ⟨db, cv, ?_, rfl⟩
      rw [createConversation_of_validate db [o2] false name2 c2 none [o2]
        (validate_direct name2 o2)]
      rw [service_direct_branch db [o2] none c2 hpl2 h22, hd2, hP12, hfd]
    | none =>
      rw [hfd] at hc1
      simp only [Except.ok.injEq, Prod.mk.injEq] at hc1
      obtain ⟨hdb1, hcv1⟩ := hc1
      have hu : db1.users = db.users := by rw [← hdb1]
      have hconvs : db1.conversations = db.conversations ++
          [{ id := db.next_conversation_id, name := none, is_group := false,
             participants := (db.users.map (fun u => u.id)).filter
               (fun i => ([o1, c1] : List Nat).contains i) }] := by
        rw [← hdb1]
      have hpl2' : ((db1.users.map (fun u => u.id)).filter
          (fun i => (dedupFirst [] ([o2] ++ [c2])).contains i)).length
          = (dedupFirst [] ([o2] ++ [c2])).length := by
        rw [hu]
        exact hpl2
      have h22' : ((db1.users.map (fun u => u.id)).filter
          (fun i => (dedupFirst [] ([o2] ++ [c2])).contains i)).length
          = 2 := by
        rw [hu]
        exact h22
      have hnone2 : db.conversations.find?
          (fun cv => cv.is_group == false &&
            (cv.participants.filter (fun p =>
              ((db.users.map (fun u => u.id)).filter
                (fun i => ([o1, c1] : List Nat).contains i)).contains p)).length
              == 2) = none :=
        find_direct_spec_none db _ hP2 hle hfd
      have hself : (((db.users.map (fun u => u.id)).filter
          (fun i => ([o1, c1] : List Nat).contains i)).filter
          (fun p => ((db.users.map (fun u => u.id)).filter
            (fun i => ([o1, c1] : List Nat).contains i)).contains p))
          = (db.users.map (fun u => u.id)).filter
            (fun i => ([o1, c1] : List Nat).contains i) :=
        List.filter_eq_self.mpr (fun p hp => List.elem_eq_true_of_mem hp)
      refine ⟨db1,
        { id := db.next_conversation_id, name := none, is_group := false,
          participants := (db.users.map (fun u => u.id)).filter
            (fun i => ([o1, c1] : List Nat).contains i) }, ?_, ?_⟩
      · rw [createConversation_of_validate db1 [o2] false name2 c2 none [o2]
          (validate_direct name2 o2)]
        rw [service_direct_branch db1 [o2] none c2 hpl2' h22', hu, hd2, hP12]
        rw [find_direct_append db1 db.conversations _ _ hconvs hP2 hnone2 rfl
          (by rw [hself, hP2]) hP2]
      · rw [← hcv1]

theorem validate_group (name : Option String) (l : List Nat)
    (h : 2 ≤ (dedupFirst [] l).length) :
    ConversationCreate.validate_conversation name true l
      = .ok (name, dedupFirst [] l) := by
  unfold ConversationCreate.validate_conversation
  rw [if_neg (fun hc => by omega), if_neg (by simp)]
  simp

theorem validate_group_fail (name : Option String) (l : List Nat)
    (h : (dedupFirst [] l).length < 2) :
    ConversationCreate.validate_conversation name true l
      = .error .invalidArgument := by
  unfold ConversationCreate.validate_conversation
  rw [if_pos ⟨rfl, h⟩]

theorem createConversation_error (db : DB) (pids : List Nat) (g : Bool)
    (name : Option String) (creator : Nat) (e : Err)
    (hval : ConversationCreate.validate_conversation name g pids
      = .error e) :
    createConversation db pids g name creator = .error e := by
  unfold createConversation
  rw [hval]
  rfl

theorem find_group_some (db : DB) (plist : List Nat) (cv : Conversation)
    (h : ConversationService.find_existing_group_conversation db plist
      = some cv) :
    cv ∈ db.conversations ∧ cv.is_group = true
      ∧ cv.participants.toFinset = plist.toFinset
      ∧ cv.participants.length = plist.length := by
  unfold ConversationService.find_existing_group_conversation at h
  by_cases hlen : plist.length < 2
  · rw [if_pos hlen] at h
    exact absurd h (by simp)
  · rw [if_neg hlen] at h
    have hmem := List.mem_of_find?_eq_some h
    have hp2 := List.find?_some h
    have hp1 := List.of_mem_filter hmem
    rw [Bool.and_eq_true, Bool.and_eq_true, beq_iff_eq] at hp2
    rw [Bool.and_eq_true, beq_iff_eq] at hp1
    refine ⟨List.mem_of_mem_filter hmem, hp1.1, ?_, hp2.1⟩
    ext x
    rw [List.mem_toFinset, List.mem_toFinset]
    constructor
    · intro hx
      exact List.mem_of_elem_eq_true
        ((List.all_eq_true.mp hp2.2.1) x hx)
    · intro hx
      exact List.mem_of_elem_eq_true
        ((List.all_eq_true.mp hp2.2.2) x hx)

theorem find_group_append (db2 : DB) (convs : List Conversation)
    (plist : List Nat) (newcv : Conversation)
    (hconvs : db2.conversations = convs ++ [newcv])
    (hlen : 2 ≤ plist.length)
    (hnone : (convs.filter (fun cv => cv.is_group &&
        (cv.participants.filter (fun p => plist.contains p)).length
          == plist.length)).find?
      (fun cv => cv.participants.length == plist.length &&
        (cv.participants.all (fun p => plist.contains p) &&
          plist.all (fun p => cv.participants.contains p))) = none)
    (hg : newcv.is_group = true)
    (hparts : newcv.participants = plist) :
    ConversationService.find_existing_group_conversation db2 plist
      = some newcv := by
  simp only [ConversationService.find_existing_group_conversation]
  rw [if_neg (by omega), hconvs, List.filter_append]
  have hself : plist.filter (fun p => plist.contains p) = plist :=
    List.filter_eq_self.mpr (fun p hp => List.elem_eq_true_of_mem hp)
  have hp1 : (newcv.is_group &&
      ((newcv.participants.filter (fun p => plist.contains p)).length
        == plist.length)) = true := by
    rw [Bool.and_eq_true, hg, hparts, hself]
    exact ⟨rfl, beq_self_eq_true _⟩
  have hf1 : List.filter (fun cv => cv.is_group &&
      ((cv.participants.filter (fun p => plist.contains p)).length
        == plist.length)) [newcv] = [newcv] := by
    have h2 := List.filter_cons_of_pos
      (p := fun cv : Conversation => cv.is_group &&
        ((cv.participants.filter (fun p => plist.contains p)).length
          == plist.length))
      (l := ([] : List Conversation)) hp1
    simpa using h2
  rw [hf1, List.find?_append, hnone]
  have hp2 : ((newcv.participants.length == plist.length) &&
      (newcv.participants.all (fun p => plist.contains p) &&
        plist.all (fun p => newcv.participants.contains p))) = true := by
    rw [Bool.and_eq_true, Bool.and_eq_true, hparts]
    exact ⟨beq_self_eq_true _,
      List.all_eq_true.mpr (fun x hx => List.elem_eq_true_of_mem hx),
      List.all_eq_true.mpr (fun x hx => List.elem_eq_true_of_mem hx)⟩
  have hfind1 : List.find? (fun cv => cv.participants.length == plist.length &&
      (cv.participants.all (fun p => plist.contains p) &&
        plist.all (fun p => cv.participants.contains p))) [newcv]
      = some newcv := List.find?_cons_of_pos [] hp2
  rw [hfind1]
  rfl

theorem plist_set_eq (users : List Nat) (pset : List Nat)
    (hund : users.Nodup) (hpn : pset.Nodup)
    (hlen : (users.filter (fun i => pset.contains i)).length = pset.length) :
    (users.filter (fun i => pset.contains i)).toFinset = pset.toFinset := by
  apply Finset.eq_of_subset_of_card_le
  · intro x hx
    rw [List.mem_toFinset] at hx
    rw [List.mem_toFinset]
    exact List.mem_of_elem_eq_true (List.mem_filter.mp hx).2
  · rw [List.toFinset_card_of_nodup hpn,
      List.toFinset_card_of_nodup (hund.filter _), hlen]

theorem group_create_cases (db : DB) (creator : Nat) (l : List Nat)
    (name : Option String) (db1 : DB) (cv1 : Conversation)
    (hc1 : createConversation db l true name creator = .ok (db1, cv1)) :
    2 ≤ (dedupFirst [] l).length
    ∧ ((db.users.map (fun u => u.id)).filter (fun i =>
        (dedupFirst [] (dedupFirst [] l ++ [creator])).contains i)).length
      = (dedupFirst [] (dedupFirst [] l ++ [creator])).length
    ∧ ((ConversationService.find_existing_group_conversation db
          ((db.users.map (fun u => u.id)).filter (fun i =>
            (dedupFirst [] (dedupFirst [] l ++ [creator])).contains i))
          = some cv1 ∧ db1 = db)
      ∨ (ConversationService.find_existing_group_conversation db
          ((db.users.map (fun u => u.id)).filter (fun i =>
            (dedupFirst [] (dedupFirst [] l ++ [creator])).contains i))
          = none
        ∧ db1 = { db with
            conversations := db.conversations ++
              [{ id := db.next_conversation_id, name := name,
                 is_group := true,
                 participants := (db.users.map (fun u => u.id)).filter
                   (fun i => (dedupFirst []
                     (dedupFirst [] l ++ [creator])).contains i) }]
            next_conversation_id := db.next_conversation_id + 1 }
        ∧ cv1 = { id := db.next_conversation_id, name := name,
                  is_group := true,
                  participants := (db.users.map (fun u => u.id)).filter
                    (fun i => (dedupFirst []
                      (dedupFirst [] l ++ [creator])).contains i) })) := by
  by_cases hv : 2 ≤ (dedupFirst [] l).length
  · rw [createConversation_of_validate db l true name creator name _
      (validate_group name l hv)] at hc1
    by_cases hlen : ((db.users.map (fun u => u.id)).filter (fun i =>
        (dedupFirst [] (dedupFirst [] l ++ [creator])).contains i)).length
        ≠ (dedupFirst [] (dedupFirst [] l ++ [creator])).length
    · simp only [ConversationService.create_conversation] at hc1
      rw [if_pos hlen] at hc1
      exact absurd hc1 (by simp)
    · push_neg at hlen
      rw [service_group_branch db (dedupFirst [] l) name creator hlen] at hc1
      refine ⟨hv, hlen, ?_⟩
      cases hfd : ConversationService.find_existing_group_conversation db
          ((db.users.map (fun u => u.id)).filter (fun i =>
            (dedupFirst [] (dedupFirst [] l ++ [creator])).contains i)) with
      | some cv =>
        rw [hfd] at hc1
        simp only [Except.ok.injEq, Prod.mk.injEq] at hc1
        obtain ⟨hdb, hcv⟩ := hc1
        exact Or.inl ⟨by rw [hcv], hdb.symm⟩
      | none =>
        rw [hfd] at hc1
        simp only [Except.ok.injEq, Prod.mk.injEq] at hc1
        obtain ⟨hdb, hcv⟩ := hc1
        exact Or.inr ⟨rfl, hdb.symm, hcv.symm⟩
  · rw [createConversation_error db l true name creator .invalidArgument
      (validate_group_fail name l (by omega))] at hc1
    exact absurd hc1 (by simp)

theorem group_plist_len_ge (db : DB) (creator : Nat) (l : List Nat)
    (hv : 2 ≤ (dedupFirst [] l).length)
    (hlen : ((db.users.map (fun u => u.id)).filter (fun i =>
        (dedupFirst [] (dedupFirst [] l ++ [creator])).contains i)).length
      = (dedupFirst [] (dedupFirst [] l ++ [creator])).length) :
    2 ≤ ((db.users.map (fun u => u.id)).filter (fun i =>
        (dedupFirst [] (dedupFirst [] l ++ [creator])).contains i)).length := by
  rw [hlen, length_dedupFirst]
  have hsub : (dedupFirst [] l).toFinset
      ⊆ (dedupFirst [] l ++ [creator]).toFinset := by
    intro x hx
    rw [List.mem_toFinset] at hx
    rw [List.mem_toFinset, List.mem_append]
    exact Or.inl hx
  calc 2 ≤ (dedupFirst [] l).length := hv
    _ = (dedupFirst [] l).toFinset.card :=
      (List.toFinset_card_of_nodup (nodup_dedupFirst [] l)).symm
    _ ≤ (dedupFirst [] l ++ [creator]).toFinset.card :=
      Finset.card_le_card hsub

theorem group_create_twice (db : DB) (creator : Nat) (l1 l2 : List Nat)
    (name1 name2 : Option String)
    (hmm : ∀ x, x ∈ l1 ↔ x ∈ l2)
    (db1 : DB) (cv1 : Conversation)
    (hc1 : createConversation db l1 true name1 creator = .ok (db1, cv1)) :
    ∃ db2 cv2, createConversation db1 l2 true name2 creator = .ok (db2, cv2)
      ∧ cv2.id = cv1.id := by
  obtain ⟨hv1, hlen1, hcases⟩ :=
    group_create_cases db creator l1 name1 db1 cv1 hc1
  have hmem12 : ∀ x, x ∈ dedupFirst [] (dedupFirst [] l2 ++ [creator])
      ↔ x ∈ dedupFirst [] (dedupFirst [] l1 ++ [creator]) := by
    intro x
    simp only [mem_dedupFirst, List.mem_append, List.not_mem_nil,
      not_false_iff, and_true, List.mem_singleton]
    rw [hmm x]
  have hP12 : (db.users.map (fun u => u.id)).filter (fun i =>
      (dedupFirst [] (dedupFirst [] l2 ++ [creator])).contains i)
      = (db.users.map (fun u => u.id)).filter (fun i =>
        (dedupFirst [] (dedupFirst [] l1 ++ [creator])).contains i) :=
    List.filter_congr (fun i _ => contains_congr hmem12 i)
  have hsetlen : (dedupFirst [] (dedupFirst [] l2 ++ [creator])).length
      = (dedupFirst [] (dedupFirst [] l1 ++ [creator])).length := by
    rw [length_dedupFirst, length_dedupFirst]
    congr 1
    ext x
    rw [List.mem_toFinset, List.mem_toFinset, List.mem_append,
      List.mem_append, mem_dedupFirst, mem_dedupFirst]
    simp only [List.not_mem_nil, not_false_iff, and_true]
    rw [hmm x]
  have hv2 : 2 ≤ (dedupFirst [] l2).length := by
    rw [length_dedupFirst]
    rw [length_dedupFirst] at hv1
    have hts : l2.toFinset = l1.toFinset := by
      ext x
      rw [List.mem_toFinset, List.mem_toFinset]
      exact (hmm x).symm
    rw [hts]
    exact hv1
  have hlen2 : ((db.users.map (fun u => u.id)).filter (fun i =>
      (dedupFirst [] (dedupFirst [] l2 ++ [creator])).contains i)).length
      = (dedupFirst [] (dedupFirst [] l2 ++ [creator])).length := by
    rw [hP12, hsetlen]
    exact hlen1
  rcases hcases with ⟨hfd, hdb⟩ | ⟨hfd, hdb, hcv⟩
  · refine ⟨db, cv1, ?_, rfl⟩
    rw [hdb]
    rw [createConversation_of_validate db l2 true name2 creator name2 _
      (validate_group name2 l2 hv2)]
    rw [service_group_branch db (dedupFirst [] l2) name2 creator hlen2]
    rw [hP12, hfd]
  · have hu : db1.users = db.users := by rw [hdb]
    have hconvs : db1.conversations = db.conversations ++ [cv1] := by
      rw [hdb, hcv]
    have hplen : 2 ≤ ((db.users.map (fun u => u.id)).filter (fun i =>
        (dedupFirst [] (dedupFirst [] l1 ++ [creator])).contains i)).length :=
      group_plist_len_ge db creator l1 hv1 hlen1
    have hn : ((db.conversations.filter (fun cv => cv.is_group &&
        (cv.participants.filter (fun p =>
          ((db.users.map (fun u => u.id)).filter (fun i =>
            (dedupFirst [] (dedupFirst [] l1 ++ [creator])).contains
              i)).contains p)).length
          == ((db.users.map (fun u => u.id)).filter (fun i =>
            (dedupFirst [] (dedupFirst [] l1 ++ [creator])).contains
              i)).length)).find?
        (fun cv => cv.participants.length
            == ((db.users.map (fun u => u.id)).filter (fun i =>
              (dedupFirst [] (dedupFirst [] l1 ++ [creator])).contains
                i)).length &&
          (cv.participants.all (fun p =>
            ((db.users.map (fun u => u.id)).filter (fun i =>
              (dedupFirst [] (dedupFirst [] l1 ++ [creator])).contains
                i)).contains p) &&
            ((db.users.map (fun u => u.id)).filter (fun i =>
              (dedupFirst [] (dedupFirst [] l1 ++ [creator])).contains
                i)).all (fun p => cv.participants.contains p)))) = none := by
      simp only [ConversationService.find_existing_group_conversation] at hfd
      rw [if_neg (by omega)] at hfd
      exact hfd
    have hlen2' : ((db1.users.map (fun u => u.id)).filter (fun i =>
        (dedupFirst [] (dedupFirst [] l2 ++ [creator])).contains i)).length
        = (dedupFirst [] (dedupFirst [] l2 ++ [creator])).length := by
      rw [hu]
      exact hlen2
    refine ⟨db1, cv1, ?_, rfl⟩
    rw [createConversation_of_validate db1 l2 true name2 creator name2 _
      (validate_group name2 l2 hv2)]
    rw [service_group_branch db1 (dedupFirst [] l2) name2 creator hlen2']
    rw [hu, hP12]
    rw [find_group_append db1 db.conversations _ cv1 hconvs hplen hn
      (by rw [hcv]) (by rw [hcv])]

theorem group_create_post (db : DB) (creator : Nat) (l : List Nat)
    (name : Option String)
    (hund : (db.users.map (fun u => u.id)).Nodup)
    (hcnd : (db.conversations.map (fun cv => cv.id)).Nodup)
    (hclt : ∀ cv ∈ db.conversations, cv.id < db.next_conversation_id)
    (db1 : DB) (cv1 : Conversation)
    (hc1 : createConversation db l true name creator = .ok (db1, cv1)) :
    cv1 ∈ db1.conversations
    ∧ cv1.participants.toFinset = (l ++ [creator]).toFinset
    ∧ db1.users = db.users
    ∧ (db1.conversations.map (fun cv => cv.id)).Nodup
    ∧ (∀ cv ∈ db1.conversations, cv.id < db1.next_conversation_id)
    ∧ (∀ cv ∈ db.conversations, cv ∈ db1.conversations) := by
  obtain ⟨hv, hlen, hcases⟩ := group_create_cases db creator l name db1 cv1 hc1
  have hplset : ((db.users.map (fun u => u.id)).filter (fun i =>
      (dedupFirst [] (dedupFirst [] l ++ [creator])).contains i)).toFinset
      = (l ++ [creator]).toFinset := by
    rw [plist_set_eq _ _ hund (nodup_dedupFirst _ _) hlen]
    ext x
    rw [List.mem_toFinset, List.mem_toFinset, mem_dedupFirst,
      List.mem_append, List.mem_append, mem_dedupFirst]
    simp
  rcases hcases with ⟨hfd, hdb⟩ | ⟨hfd, hdb, hcv⟩
  · obtain ⟨hmem, hg, hset, hplen⟩ := find_group_some db _ cv1 hfd
    subst hdb
    refine ⟨hmem, ?_, rfl, hcnd, hclt, fun cv h => h⟩
    rw [hset, hplset]
  · refine ⟨?_, ?_, ?_, ?_, ?_, ?_⟩
    · rw [hdb, hcv]
      simp
    · rw [hcv]
      exact hplset
    · rw [hdb]
    · rw [hdb]
      simp only [List.map_append, List.map_cons, List.map_nil]
      rw [List.nodup_append]
      refine ⟨hcnd, by simp, ?_⟩
      intro a ha hb
      rw [List.mem_singleton] at hb
      obtain ⟨cv, hcvm, hcvid⟩ := List.mem_map.mp ha
      have := hclt cv hcvm
      omega
    · rw [hdb]
      intro cv hcv2
      rcases List.mem_append.mp hcv2 with h | h
      · have := hclt cv h
        show cv.id < db.next_conversation_id + 1
        omega
      · rw [List.mem_singleton] at h
        rw [h]
        show db.next_conversation_id < db.next_conversation_id + 1
        omega
    · rw [hdb]
      intro cv h
      exact List.mem_append_left _ h

theorem validate_direct_fail (name : Option String) (pids : List Nat)
    (h : (dedupFirst [] pids).length ≠ 1) :
    ConversationCreate.validate_conversation name false pids
      = .error .invalidArgument := by
  unfold ConversationCreate.validate_conversation
  rw [if_neg (by simp), if_pos ⟨by simp, h⟩]

theorem validate_direct_ok (name : Option String) (pids : List Nat)
    (h : (dedupFirst [] pids).length = 1) :
    ConversationCreate.validate_conversation name false pids
      = .ok (none, dedupFirst [] pids) := by
  unfold ConversationCreate.validate_conversation
  rw [if_neg (by simp), if_neg (fun hc => hc.2 h)]
  simp

theorem find_direct_some (db : DB) (plist : List Nat) (cv : Conversation)
    (h : ConversationService.find_existing_direct_conversation db plist
      = some cv) :
    cv ∈ db.conversations ∧ cv.participants.length = 2 := by
  unfold ConversationService.find_existing_direct_conversation at h
  by_cases hlen : plist.length ≠ 2
  · rw [if_pos hlen] at h
    exact absurd h (by simp)
  · rw [if_neg hlen] at h
    split at h
    · rename_i cv0 heq
      split at h
      · rename_i h2
        rw [Option.some.injEq] at h
        rw [← h]
        exact ⟨List.mem_of_find?_eq_some heq, h2⟩
      · exact absurd h (by simp)
    · exact absurd h (by simp)

theorem direct_create_cases (db : DB) (creator : Nat) (pids : List Nat)
    (name : Option String) (db1 : DB) (cv1 : Conversation)
    (hc1 : createConversation db pids false name creator = .ok (db1, cv1)) :
    (dedupFirst [] pids).length = 1
    ∧ ((db.users.map (fun u => u.id)).filter (fun i =>
        (dedupFirst [] (dedupFirst [] pids ++ [creator])).contains i)).length
      = (dedupFirst [] (dedupFirst [] pids ++ [creator])).length
    ∧ ((cv1 ∈ db.conversations ∧ cv1.participants.length = 2)
      ∨ cv1.participants = (db.users.map (fun u => u.id)).filter (fun i =>
          (dedupFirst [] (dedupFirst [] pids ++ [creator])).contains i)) := by
  by_cases hv : (dedupFirst [] pids).length = 1
  · rw [createConversation_of_validate db pids false name creator none _
      (validate_direct_ok name pids hv)] at hc1
    simp only [ConversationService.create_conversation] at hc1
    by_cases hlen : ((db.users.map (fun u => u.id)).filter (fun i =>
        (dedupFirst [] (dedupFirst [] pids ++ [creator])).contains i)).length
        ≠ (dedupFirst [] (dedupFirst [] pids ++ [creator])).length
    · rw [if_pos hlen] at hc1
      exact absurd hc1 (by simp)
    · rw [if_neg hlen] at hc1
      push_neg at hlen
      refine ⟨hv, hlen, ?_⟩
      by_cases h2 : ((db.users.map (fun u => u.id)).filter (fun i =>
          (dedupFirst [] (dedupFirst [] pids ++ [creator])).contains
            i)).length = 2
      · rw [if_pos ⟨by simp, h2⟩] at hc1
        cases hfd : ConversationService.find_existing_direct_conversation db
            ((db.users.map (fun u => u.id)).filter (fun i =>
              (dedupFirst [] (dedupFirst [] pids ++ [creator])).contains
                i)) with
        | some cv =>
          rw [hfd] at hc1
          simp only [Except.ok.injEq, Prod.mk.injEq] at hc1
          obtain ⟨hdb, hcv⟩ := hc1
          obtain ⟨hmem, hlen2⟩ := find_direct_some db _ cv hfd
          rw [← hcv]
          exact Or.inl ⟨hmem, hlen2⟩
        | none =>
          rw [hfd] at hc1
          simp only [Except.ok.injEq, Prod.mk.injEq] at hc1
          obtain ⟨hdb, hcv⟩ := hc1
          rw [← hcv]
          exact Or.inr rfl
      · rw [if_neg (fun hc => h2 hc.2), if_neg (by simp)] at hc1
        simp only [Except.ok.injEq, Prod.mk.injEq] at hc1
        obtain ⟨hdb, hcv⟩ := hc1
        rw [← hcv]
        exact Or.inr rfl
  · rw [createConversation_error db pids false name creator .invalidArgument
      (validate_direct_fail name pids hv)] at hc1
    exact absurd hc1 (by simp)

theorem pset_length_of_not_mem (pids : List Nat) (creator : Nat)
    (h : creator ∉ pids) :
    (dedupFirst [] (dedupFirst [] pids ++ [creator])).length
      = (dedupFirst [] pids).length + 1 := by
  rw [length_dedupFirst, length_dedupFirst]
  have hins : (dedupFirst [] pids ++ [creator]).toFinset
      = insert creator pids.toFinset := by
    ext x
    rw [List.mem_toFinset, List.mem_append, mem_dedupFirst,
      Finset.mem_insert, List.mem_toFinset]
    simp [or_comm]
  rw [hins, Finset.card_insert_of_not_mem (by
    rw [List.mem_toFinset]
    exact h)]

/-- C3 (amended): the cardinality validation runs on the deduplicated list
of named participant ids, before the creator is added: a group request
needs at least 2 named others and a direct request exactly 1 named other,
failing with InvalidArgument otherwise; consequently, whenever the creator
is not among the named ids, an admitted non-group conversation has exactly
2 distinct participants and an admitted group conversation at least 3.
(When the creator names themself the full invariant fails, see the
counterexample.) -/
theorem C3_amended_cardinality (db : DB) (pids : List Nat) (ig : Bool)
    (name : Option String) (creator : Nat)
    (hund : (db.users.map (fun u => u.id)).Nodup)
    (hpn : ∀ cv ∈ db.conversations, cv.participants.Nodup) :
    (((ig = true ∧ (dedupFirst [] pids).length < 2)
        ∨ (ig = false ∧ (dedupFirst [] pids).length ≠ 1)) →
      createConversation db pids ig name creator = .error .invalidArgument)
    ∧ (creator ∉ pids →
      ∀ db1 cv1, createConversation db pids ig name creator
          = .ok (db1, cv1) →
        (ig = false → cv1.participants.toFinset.card = 2)
        ∧ (ig = true → 3 ≤ cv1.participants.toFinset.card)) := by
  constructor
  · rintro (⟨hig, hlt⟩ | ⟨hig, hne⟩)
    · subst hig
      exact createConversation_error db pids true name creator _
        (validate_group_fail name pids hlt)
    · subst hig
      exact createConversation_error db pids false name creator _
        (validate_direct_fail name pids hne)
  · intro hcr db1 cv1 hc1
    constructor
    · intro hig
      subst hig
      obtain ⟨hv, hlen, hcase⟩ :=
        direct_create_cases db creator pids name db1 cv1 hc1
      have hpset2 : (dedupFirst []
          (dedupFirst [] pids ++ [creator])).length = 2 := by
        rw [pset_length_of_not_mem pids creator hcr, hv]
      rcases hcase with ⟨hmem, hlen2⟩ | hparts
      · rw [List.toFinset_card_of_nodup (hpn cv1 hmem), hlen2]
      · rw [hparts, plist_set_eq _ _ hund (nodup_dedupFirst _ _) hlen,
          List.toFinset_card_of_nodup (nodup_dedupFirst _ _), hpset2]
    · intro hig
      subst hig
      obtain ⟨hv, hlen, hcases⟩ :=
        group_create_cases db creator pids name db1 cv1 hc1
      have hpset3 : 3 ≤ (dedupFirst []
          (dedupFirst [] pids ++ [creator])).length := by
        rw [pset_length_of_not_mem pids creator hcr]
        omega
      have hplcard : ((db.users.map (fun u => u.id)).filter (fun i =>
          (dedupFirst []
            (dedupFirst [] pids ++ [creator])).contains i)).toFinset.card
          = (dedupFirst [] (dedupFirst [] pids ++ [creator])).length := by
        rw [plist_set_eq _ _ hund (nodup_dedupFirst _ _) hlen,
          List.toFinset_card_of_nodup (nodup_dedupFirst _ _)]
      rcases hcases with ⟨hfd, hdb⟩ | ⟨hfd, hdb, hcv⟩
      · obtain ⟨hmem, hg, hset, hplen⟩ := find_group_some db _ cv1 hfd
        rw [hset, hplcard]
        exact hpset3
      · rw [hcv]
        dsimp only
        rw [hplcard]
        exact hpset3

/-- C4: creating a non-group conversation for the same pair of distinct
users twice (named in either direction) returns the same conversation;
creating a group conversation with the same named-participant set in any
permutation returns the same conversation; and group participant sets that
differ by even one member yield different conversations. -/
theorem C4_conversation_dedup (db : DB) (hinv : DBInv db)
    (hng : ∀ cv ∈ db.conversations, cv.is_group = false →
      cv.participants.length ≤ 2) :
    (∀ c1 o1 c2 o2 name1 name2 db1 cv1, c1 ≠ o1 → c2 ≠ o2 →
      (∀ x, x ∈ ([o1, c1] : List Nat) ↔ x ∈ ([o2, c2] : List Nat)) →
      createConversation db [o1] false name1 c1 = .ok (db1, cv1) →
      ∃ db2 cv2, createConversation db1 [o2] false name2 c2
        = .ok (db2, cv2) ∧ cv2.id = cv1.id)
    ∧ (∀ creator l1 l2 name1 name2 db1 cv1, (∀ x, x ∈ l1 ↔ x ∈ l2) →
      createConversation db l1 true name1 creator = .ok (db1, cv1) →
      ∃ db2 cv2, createConversation db1 l2 true name2 creator
        = .ok (db2, cv2) ∧ cv2.id = cv1.id)
    ∧ (∀ cr1 cr2 l1 l2 name1 name2 db1 cv1 db2 cv2,
      (l1 ++ [cr1]).toFinset ≠ (l2 ++ [cr2]).toFinset →
      createConversation db l1 true name1 cr1 = .ok (db1, cv1) →
      createConversation db1 l2 true name2 cr2 = .ok (db2, cv2) →
      cv1.id ≠ cv2.id) := by
  refine ⟨?_, ?_, ?_⟩
  · intro c1 o1 c2 o2 name1 name2 db1 cv1 h1 h2 hset hc1
    exact direct_create_twice db c1 o1 c2 o2 name1 name2 h1 h2 hset hng
      db1 cv1 hc1
  · intro creator l1 l2 name1 name2 db1 cv1 hmm hc1
    exact group_create_twice db creator l1 l2 name1 name2 hmm db1 cv1 hc1
  · intro cr1 cr2 l1 l2 name1 name2 db1 cv1 db2 cv2 hdiff h1 h2
    obtain ⟨hm1, hs1, hu1, hnd1, hlt1, hsub1⟩ :=
      group_create_post db cr1 l1 name1 hinv.user_ids_nodup
        hinv.conv_ids_nodup hinv.conv_ids_lt db1 cv1 h1
    obtain ⟨hm2, hs2, hu2, hnd2, hlt2, hsub2⟩ :=
      group_create_post db1 cr2 l2 name2
        (by rw [hu1]; exact hinv.user_ids_nodup) hnd1 hlt1 db2 cv2 h2
    intro hid
    have heq : cv1 = cv2 :=
      List.inj_on_of_nodup_map hnd2 (hsub2 cv1 hm1) hm2 hid
    apply hdiff
    rw [← hs1, heq, hs2]

theorem dbFour_inv : DBInv dbFour :=
  ⟨by decide, by decide, by decide, by decide, by decide, by decide,
   by decide, by decide⟩

/-- C4 witness: on the concrete four-user database, user 2 re-creating the
direct conversation with user 1 gets conversation 1 back; a permuted group
set gets the existing group conversation back; and the two group sets that
differ by one member received two different ids. -/
theorem C4_conversation_dedup_witness :
    (∃ db2 cv2, createConversation
        { dbFour with
          conversations := [{ id := 1, name := none, is_group := false,
                              participants := [1, 2] }]
          next_conversation_id := 2 } [1] false none 2 = .ok (db2, cv2)
      ∧ cv2.id = 1)
    ∧ (∃ db2 cv2, createConversation
        { dbFour with
          conversations := [{ id := 1, name := some "g", is_group := true,
                              participants := [1, 2, 3] }]
          next_conversation_id := 2 } [3, 2] true none 1 = .ok (db2, cv2)
      ∧ cv2.id = 1)
    ∧ ({ id := 1, name := some "g", is_group := true,
         participants := [1, 2, 3] } : Conversation).id
      ≠ ({ id := 2, name := none, is_group := true,
           participants := [1, 2, 4] } : Conversation).id := by
  refine ⟨?_, ?_, ?_⟩
  · obtain ⟨db2, cv2, h, hid⟩ :=
      (C4_conversation_dedup dbFour dbFour_inv (by decide)).1 1 2 2 1
        none none
        { dbFour with
          conversations := [{ id := 1, name := none, is_group := false,
                              participants := [1, 2] }]
          next_conversation_id := 2 }
        { id := 1, name := none, is_group := false, participants := [1, 2] }
        (by decide) (by decide)
        (by intro x; simp [List.mem_cons]; tauto) rfl
    exact ⟨db2, cv2, h, hid⟩
  · obtain ⟨db2, cv2, h, hid⟩ :=
      (C4_conversation_dedup dbFour dbFour_inv (by decide)).2.1 1 [2, 3]
        [3, 2] (some "g") none
        { dbFour with
          conversations := [{ id := 1, name := some "g", is_group := true,
                              participants := [1, 2, 3] }]
          next_conversation_id := 2 }
        { id := 1, name := some "g", is_group := true,
          participants := [1, 2, 3] }
        (by intro x; simp [List.mem_cons]; tauto) rfl
    exact ⟨db2, cv2, h, hid⟩
  · exact (C4_conversation_dedup dbFour dbFour_inv (by decide)).2.2 1 1
      [2, 3] [2, 4] (some "g") none
      { dbFour with
        conversations := [{ id := 1, name := some "g", is_group := true,
                            participants := [1, 2, 3] }]
        next_conversation_id := 2 }
      { id := 1, name := some "g", is_group := true,
        participants := [1, 2, 3] }
      { dbFour with
        conversations := [{ id := 1, name := some "g", is_group := true,
                            participants := [1, 2, 3] },
                          { id := 2, name := none, is_group := true,
                            participants := [1, 2, 4] }]
        next_conversation_id := 3 }
      { id := 2, name := none, is_group := true, participants := [1, 2, 4] }
      (by decide) rfl rfl

/-- C3 amended witness: a group request naming only one distinct other
fails with InvalidArgument, and a direct creation by user 1 naming user 2
yields a conversation with exactly 2 distinct participants. -/
theorem C3_amended_cardinality_witness :
    createConversation dbFour [2, 2] true (some "g") 1
      = .error .invalidArgument
    ∧ ({ id := 1, name := none, is_group := false,
         participants := [1, 2] } : Conversation).participants.toFinset.card
      = 2 := by
  constructor
  · exact (C3_amended_cardinality dbFour [2, 2] true (some "g") 1
      (by decide) (by decide)).1 (Or.inl ⟨rfl, by decide⟩)
  · exact ((C3_amended_cardinality dbFour [2] false none 1 (by decide)
      (by decide)).2 (by decide)
      { dbFour with
        conversations := [{ id := 1, name := none, is_group := false,
                            participants := [1, 2] }]
        next_conversation_id := 2 }
      { id := 1, name := none, is_group := false, participants := [1, 2] }
      rfl).1 rfl

end ZChat
